import Mathlib

/-!
Shallow embedding of the `bookhive` library-management system
(`src/bookhive/domain.py`, `repositories.py`, `services.py`, `api.py`).

Modelling conventions:
* Entity identifiers (`user_id`, `book_id`, …) are natural numbers produced by
  a per-system counter `nextId`; the source draws random uuid suffixes, and its
  design notes ask for an injectable id generator, so a counter models `_new_id`.
* `datetime` values are natural numbers counting seconds; `timedelta(days=n)`
  is `n * 86400` seconds and `datetime.date()` is division by `86400`
  (`dateOf`), so that Python's calendar-date subtraction `(d1 - d2).days`
  becomes integer subtraction of the two `dateOf` values.
* Each repository's backing `dict` is a list in insertion order; dictionary
  assignment (`self._xs[x.id] = x`) is `dictAdd`, which replaces an entry with
  the same key in place and otherwise appends.
* Python's in-place mutation of an entity object held by a repository is
  modelled by rebuilding the repository list with the entity replaced at its
  key (`setCopyStatus`, the loan/fine/reservation updates below).
* `datetime.utcnow()` defaults are replaced by explicit `now` arguments
  (the source's design notes call for an injectable clock).
-/

/-- `Role` enum from `domain.py`. -/
inductive Role where
  | MEMBER
  | LIBRARIAN
  | ADMIN
deriving DecidableEq, Repr

/-- `User` dataclass from `domain.py`. -/
structure User where
  user_id : Nat
  name : String
  email : String
  role : Role := Role.MEMBER
  active : Bool := true
deriving DecidableEq, Repr

/-- `User.can_borrow` from `domain.py`: active and role in (MEMBER, LIBRARIAN, ADMIN). -/
def User.can_borrow (u : User) : Bool :=
  u.active && (u.role == Role.MEMBER || u.role == Role.LIBRARIAN || u.role == Role.ADMIN)

/-- `Book` dataclass from `domain.py`. -/
structure Book where
  book_id : Nat
  title : String
  author : String
  isbn : String
  tags : List String := []
deriving DecidableEq, Repr

/-- `CopyStatus` enum from `domain.py`. -/
inductive CopyStatus where
  | AVAILABLE
  | CHECKED_OUT
  | LOST
  | MAINTENANCE
deriving DecidableEq, Repr

/-- `Copy` dataclass from `domain.py`. -/
structure Copy where
  copy_id : Nat
  book_id : Nat
  status : CopyStatus := CopyStatus.AVAILABLE
deriving DecidableEq, Repr

/-- `Loan` dataclass from `domain.py`; timestamps are seconds. -/
structure Loan where
  loan_id : Nat
  user_id : Nat
  copy_id : Nat
  checkout_at : Nat
  due_at : Nat
  returned_at : Option Nat := none
deriving DecidableEq, Repr

/-- Seconds in a day: `timedelta(days = 1)`. -/
def secondsPerDay : Nat := 86400

/-- `datetime.date()` of a timestamp: the calendar-day index. -/
def dateOf (t : Nat) : Nat := t / secondsPerDay

/-- `Loan.is_overdue` from `domain.py`: open and `now > due_at`. -/
def Loan.is_overdue (l : Loan) (now : Nat) : Bool :=
  l.returned_at.isNone && l.due_at < now

/-- `ReservationStatus` enum from `domain.py`. -/
inductive ReservationStatus where
  | ACTIVE
  | FULFILLED
  | CANCELLED
deriving DecidableEq, Repr

/-- `Reservation` dataclass from `domain.py`. -/
structure Reservation where
  reservation_id : Nat
  user_id : Nat
  book_id : Nat
  placed_at : Nat
  status : ReservationStatus := ReservationStatus.ACTIVE
deriving DecidableEq, Repr

/-- `Fine` dataclass from `domain.py`. -/
structure Fine where
  fine_id : Nat
  user_id : Nat
  amount_cents : Nat
  reason : String
  created_at : Nat
  paid_at : Option Nat := none
deriving DecidableEq, Repr

/-- `Fine.is_paid` from `domain.py`. -/
def Fine.is_paid (f : Fine) : Bool := f.paid_at.isSome

/-- Python `dict` assignment `d[key x] = x` on an insertion-ordered store:
replace an existing entry with the same key in place, else append. -/
def dictAdd {α : Type} (key : α → Nat) (l : List α) (x : α) : List α :=
  if l.any (fun y => key y == key x) then
    l.map (fun y => if key y == key x then x else y)
  else
    l ++ [x]

/-! ### String helpers for `BookRepo.search`

Python's `str.lower`, `str.strip` and substring membership `t in s`,
modelled on the character list of the string. -/

/-- ASCII `lower` of one character (as Python's `str.lower` acts on ASCII). -/
def charLower (c : Char) : Char := c.toLower

/-- `str.lower` on the character list. -/
def lowerChars (cs : List Char) : List Char := cs.map charLower

/-- `str.strip`: drop whitespace from both ends. -/
def stripChars (cs : List Char) : List Char :=
  ((cs.dropWhile Char.isWhitespace).reverse.dropWhile Char.isWhitespace).reverse

/-- Is `pre` an initial segment of `l`? -/
def listStartsWith : List Char → List Char → Bool
  | [], _ => true
  | _ :: _, [] => false
  | p :: ps, c :: cs => p == c && listStartsWith ps cs

/-- Python substring test `needle in hay` on character lists. -/
def listContainsSub (needle : List Char) : List Char → Bool
  | [] => listStartsWith needle []
  | c :: cs => listStartsWith needle (c :: cs) || listContainsSub needle cs

/-- `t in s.lower()` for strings, with `t` already a character list. -/
def strContainsLower (t : List Char) (s : String) : Bool :=
  listContainsSub t (lowerChars s.toList)

/-! ### Repositories (`repositories.py`)

Each repo is the insertion-ordered list behind its `dict`. -/

/-- `UserRepo.get`. -/
def UserRepo.get (users : List User) (user_id : Nat) : Option User :=
  users.find? (fun u => u.user_id == user_id)

/-- The `matches` predicate inside `BookRepo.search`, for query `t`
(already lowercased and stripped). -/
def BookRepo.matchesQuery (t : List Char) (b : Book) : Bool :=
  strContainsLower t b.title || strContainsLower t b.author ||
    strContainsLower t b.isbn || b.tags.any (fun tag => strContainsLower t tag)

/-- `BookRepo.search`: lowercase and strip the query, keep books matching
title, author, isbn or any tag case-insensitively. -/
def BookRepo.search (books : List Book) (text : String) : List Book :=
  let t := stripChars (lowerChars text.toList)
  books.filter (fun b => BookRepo.matchesQuery t b)

/-- `BookRepo.get_book`. -/
def BookRepo.get_book (books : List Book) (book_id : Nat) : Option Book :=
  books.find? (fun b => b.book_id == book_id)

/-- `BookRepo.get_copy`. -/
def BookRepo.get_copy (copies : List Copy) (copy_id : Nat) : Option Copy :=
  copies.find? (fun c => c.copy_id == copy_id)

/-- `BookRepo.list_copies_for_book`. -/
def BookRepo.list_copies_for_book (copies : List Copy) (book_id : Nat) : List Copy :=
  copies.filter (fun c => c.book_id == book_id)

/-- `BookRepo.list_available_copy_ids`. -/
def BookRepo.list_available_copy_ids (copies : List Copy) (book_id : Nat) : List Nat :=
  ((BookRepo.list_copies_for_book copies book_id).filter
    (fun c => c.status == CopyStatus.AVAILABLE)).map (fun c => c.copy_id)

/-- `LoanRepo.get`. -/
def LoanRepo.get (loans : List Loan) (loan_id : Nat) : Option Loan :=
  loans.find? (fun l => l.loan_id == loan_id)

/-- `ReservationRepo.list_active_for_book`: Active reservations of the book,
sorted FIFO by `placed_at` (Python's stable `sorted`). -/
def ReservationRepo.list_active_for_book
    (reservations : List Reservation) (book_id : Nat) : List Reservation :=
  (reservations.filter
      (fun r => r.book_id == book_id && r.status == ReservationStatus.ACTIVE)).insertionSort
    (fun r₁ r₂ => r₁.placed_at ≤ r₂.placed_at)

/-- `FineRepo.list_unpaid_by_user`. -/
def FineRepo.list_unpaid_by_user (fines : List Fine) (user_id : Nat) : List Fine :=
  fines.filter (fun f => f.user_id == user_id && !f.is_paid)

/-- `FineRepo.total_unpaid_cents`. -/
def FineRepo.total_unpaid_cents (fines : List Fine) (user_id : Nat) : Nat :=
  ((FineRepo.list_unpaid_by_user fines user_id).map (fun f => f.amount_cents)).sum

/-! ### Services (`services.py`) -/

/-- `FineService.assess_overdue_fine`: overdue-day count following the
source's branch structure (`if returned late / elif is_overdue / else None`).
`none` means the `else: return None` branch was taken. -/
def FineService.overdueDays (loan : Loan) (now : Nat) : Option Int :=
  match loan.returned_at with
  | some r =>
      if loan.due_at < r then
        some ((dateOf r : Int) - (dateOf loan.due_at : Int))
      else
        -- falls through to `elif loan.is_overdue(now)`, false since returned
        none
  | none =>
      if loan.is_overdue now then
        some ((dateOf now : Int) - (dateOf loan.due_at : Int))
      else
        none

/-- `FineService.assess_overdue_fine`: $0.50/day overdue; persists the fine
when positive. Returns the optional fine, the updated fine store and the
updated id counter. -/
def FineService.assess_overdue_fine (fines : List Fine) (nextId : Nat)
    (loan : Loan) (now : Nat) : Option Fine × List Fine × Nat :=
  match FineService.overdueDays loan now with
  | none => (none, fines, nextId)
  | some days =>
      let amount_cents : Int := max 0 days * 50
      if amount_cents ≤ 0 then
        (none, fines, nextId)
      else
        let f : Fine :=
          { fine_id := nextId
            user_id := loan.user_id
            amount_cents := amount_cents.toNat
            reason := "Overdue " ++ toString days ++ " day(s) for loan " ++
              toString loan.loan_id
            created_at := now
            paid_at := none }
        (some f, dictAdd Fine.fine_id fines f, nextId + 1)

/-- `FineService.pay_all`: sum the user's unpaid fines and mark each paid
(at `now`); returns the total and the updated store. -/
def FineService.pay_all (fines : List Fine) (user_id : Nat) (now : Nat) :
    Nat × List Fine :=
  (((FineRepo.list_unpaid_by_user fines user_id).map (fun f => f.amount_cents)).sum,
    fines.map (fun f =>
      if f.user_id == user_id && !f.is_paid then { f with paid_at := some now } else f))

/-- In-place `copy.status = st` through the `BookRepo` store. -/
def setCopyStatus (copies : List Copy) (copy_id : Nat) (st : CopyStatus) : List Copy :=
  copies.map (fun c => if c.copy_id == copy_id then { c with status := st } else c)

/-- The `for copy_id in ...: copy = get_copy(copy_id); if copy is None: continue`
loop head of `checkout_first_available`: the first copy id in the list whose
copy record exists, together with that record. -/
def firstExistingCopy (copies : List Copy) : List Nat → Option Copy
  | [] => none
  | cid :: rest =>
      match BookRepo.get_copy copies cid with
      | none => firstExistingCopy copies rest
      | some c => some c

/-- The reservation-fulfilment scan of `checkout_first_available`: first
queue entry of this user still Active is set to FULFILLED (break after one). -/
def fulfillFirst (reservations : List Reservation) (queue : List Reservation)
    (user_id : Nat) : List Reservation :=
  match queue.find? (fun r => r.user_id == user_id && r.status == ReservationStatus.ACTIVE) with
  | none => reservations
  | some r0 =>
      reservations.map (fun r =>
        if r.reservation_id == r0.reservation_id then
          { r with status := ReservationStatus.FULFILLED }
        else r)

/-- The whole mutable state behind `LibrarySystem` (`api.py`): the five
repositories plus the id counter standing for `_new_id`. -/
structure LibrarySystem where
  users : List User
  books : List Book
  copies : List Copy
  loans : List Loan
  reservations : List Reservation
  fines : List Fine
  nextId : Nat
deriving DecidableEq, Repr

/-- `LibrarySystem()`: all repositories empty. -/
def LibrarySystem.empty : LibrarySystem :=
  { users := [], books := [], copies := [], loans := [], reservations := []
    fines := [], nextId := 0 }

/-- `CirculationService.default_loan_days`. -/
def default_loan_days : Nat := 14

/-- The copy-scanning tail of `checkout_first_available` (after the user and
queue guards): first existing available copy, or the `return None` at the end. -/
def CirculationService.checkoutAvailable (s : LibrarySystem)
    (user_id book_id : Nat) (now : Nat) (queue : List Reservation) :
    Option Loan × LibrarySystem :=
  match firstExistingCopy s.copies (BookRepo.list_available_copy_ids s.copies book_id) with
  | none => (none, s)
  | some copy =>
      let loan : Loan :=
        { loan_id := s.nextId
          user_id := user_id
          copy_id := copy.copy_id
          checkout_at := now
          due_at := now + default_loan_days * secondsPerDay
          returned_at := none }
      (some loan,
        { s with
            copies := setCopyStatus s.copies copy.copy_id CopyStatus.CHECKED_OUT
            loans := dictAdd Loan.loan_id s.loans loan
            reservations := fulfillFirst s.reservations queue user_id
            nextId := s.nextId + 1 })

/-- `CirculationService.checkout_first_available` (`services.py`): deny when
the user is missing or cannot borrow, or when the Active FIFO queue is headed
by another user; otherwise take the first available copy (if any), mark it
CheckedOut, create and persist a 14-day loan, and fulfil the requesting
user's first Active reservation in the queue. Denials leave the state as is. -/
def CirculationService.checkout_first_available (s : LibrarySystem)
    (user_id book_id : Nat) (now : Nat) : Option Loan × LibrarySystem :=
  match UserRepo.get s.users user_id with
  | none => (none, s)
  | some user =>
      if !user.can_borrow then (none, s)
      else
        let queue := ReservationRepo.list_active_for_book s.reservations book_id
        match queue with
        | q0 :: _ =>
            if q0.user_id != user_id then (none, s)
            else
              CirculationService.checkoutAvailable s user_id book_id now queue
        | [] => CirculationService.checkoutAvailable s user_id book_id now queue

/-- `CirculationService.return_copy` (`services.py`): deny when the loan is
missing or already returned; otherwise stamp `returned_at := now`, set the
copy (when it still exists) back to Available, and run fine assessment on the
closed loan. The queue notification is an informational print only. -/
def CirculationService.return_copy (s : LibrarySystem) (loan_id : Nat) (now : Nat) :
    Option Loan × LibrarySystem :=
  match LoanRepo.get s.loans loan_id with
  | none => (none, s)
  | some loan =>
      if loan.returned_at.isSome then (none, s)
      else
        let loan' := { loan with returned_at := some now }
        let loans' := s.loans.map (fun l => if l.loan_id == loan_id then loan' else l)
        let copies' :=
          match BookRepo.get_copy s.copies loan.copy_id with
          | some _ => setCopyStatus s.copies loan.copy_id CopyStatus.AVAILABLE
          | none => s.copies
        let assessed := FineService.assess_overdue_fine s.fines s.nextId loan' now
        (some loan',
          { s with
              loans := loans'
              copies := copies'
              fines := assessed.2.1
              nextId := assessed.2.2 })

/-- `CirculationService.reserve_book`: always succeeds, appends a fresh
Active reservation stamped `now`. -/
def CirculationService.reserve_book (s : LibrarySystem) (user_id book_id : Nat)
    (now : Nat) : Reservation × LibrarySystem :=
  let r : Reservation :=
    { reservation_id := s.nextId
      user_id := user_id
      book_id := book_id
      placed_at := now
      status := ReservationStatus.ACTIVE }
  (r, { s with
          reservations := dictAdd Reservation.reservation_id s.reservations r
          nextId := s.nextId + 1 })

/-- `UserService.register_user` via the facade's `create_user`. -/
def UserService.register_user (s : LibrarySystem) (name email : String)
    (role : Role) : User × LibrarySystem :=
  let u : User := { user_id := s.nextId, name := name, email := email
                    role := role, active := true }
  (u, { s with users := dictAdd User.user_id s.users u, nextId := s.nextId + 1 })

/-- The `for _ in range(copies)` loop of `add_book_with_copies`: add `n`
fresh Available copies of the book. -/
def addCopies (s : LibrarySystem) (book_id : Nat) : Nat → LibrarySystem
  | 0 => s
  | n + 1 =>
      let c : Copy := { copy_id := s.nextId, book_id := book_id
                        status := CopyStatus.AVAILABLE }
      addCopies
        { s with copies := dictAdd Copy.copy_id s.copies c, nextId := s.nextId + 1 }
        book_id n

/-- `CatalogService.add_book_with_copies` via the facade's `add_book`. -/
def CatalogService.add_book_with_copies (s : LibrarySystem)
    (title author isbn : String) (tags : List String) (copies : Nat) :
    Book × LibrarySystem :=
  let b : Book := { book_id := s.nextId, title := title, author := author
                    isbn := isbn, tags := tags }
  (b, addCopies
        { s with
            books := dictAdd Book.book_id s.books b
            nextId := s.nextId + 1 }
        b.book_id copies)

/-- One facade operation of `LibrarySystem` (`api.py`), with the implicit
`utcnow` clock made an explicit argument. -/
inductive Op where
  | createUser (name email : String) (role : Role)
  | addBook (title author isbn : String) (tags : List String) (copies : Nat)
  | checkout (user_id book_id : Nat) (now : Nat)
  | returnLoan (loan_id : Nat) (now : Nat)
  | reserve (user_id book_id : Nat) (now : Nat)
  | payAllFines (user_id : Nat) (now : Nat)
deriving DecidableEq, Repr

/-- Apply one facade operation to the system state. -/
def applyOp (s : LibrarySystem) : Op → LibrarySystem
  | Op.createUser name email role => (UserService.register_user s name email role).2
  | Op.addBook title author isbn tags copies =>
      (CatalogService.add_book_with_copies s title author isbn tags copies).2
  | Op.checkout user_id book_id now =>
      (CirculationService.checkout_first_available s user_id book_id now).2
  | Op.returnLoan loan_id now => (CirculationService.return_copy s loan_id now).2
  | Op.reserve user_id book_id now =>
      (CirculationService.reserve_book s user_id book_id now).2
  | Op.payAllFines user_id now =>
      { s with fines := (FineService.pay_all s.fines user_id now).2 }

/-- Run a list of facade operations from a state. -/
def runFrom (s : LibrarySystem) (ops : List Op) : LibrarySystem :=
  ops.foldl applyOp s

/-- Run a list of facade operations from the empty system. -/
def runOps (ops : List Op) : LibrarySystem :=
  runFrom LibrarySystem.empty ops

/-- States reachable from the empty `LibrarySystem` through facade operations. -/
def Reachable (s : LibrarySystem) : Prop :=
  ∃ ops : List Op, runOps ops = s

/-! ### Specification-side definitions used in theorem statements -/

/-- Number of open loans (`returned_at` is None) on a given copy id. -/
def openOn (loans : List Loan) (copy_id : Nat) : Nat :=
  loans.countP (fun l => l.copy_id == copy_id && l.returned_at.isNone)

/-- A loan's copy belongs to the given book, resolved through the copy store. -/
def loanOfBook (copies : List Copy) (book_id : Nat) (l : Loan) : Bool :=
  match BookRepo.get_copy copies l.copy_id with
  | some c => c.book_id == book_id
  | none => false

/-- Number of Copy records of the book with status CheckedOut. -/
def checkedOutCount (copies : List Copy) (book_id : Nat) : Nat :=
  copies.countP (fun c => c.book_id == book_id && c.status == CopyStatus.CHECKED_OUT)

/-- Number of open loans whose copy belongs to the book. -/
def openLoanCount (s : LibrarySystem) (book_id : Nat) : Nat :=
  s.loans.countP (fun l => l.returned_at.isNone && loanOfBook s.copies book_id l)

/-- `needle` occurs as a contiguous substring of `hay`. -/
def IsSubstring (needle hay : List Char) : Prop :=
  ∃ pre post, hay = pre ++ needle ++ post

/-- The search-membership predicate exactly as the claim words it: the query
text itself (not stripped), compared case-insensitively, is a substring of
the title, the author, the ISBN, or some tag. -/
def claimSearchMatch (text : String) (b : Book) : Prop :=
  IsSubstring (lowerChars text.toList) (lowerChars b.title.toList) ∨
    IsSubstring (lowerChars text.toList) (lowerChars b.author.toList) ∨
    IsSubstring (lowerChars text.toList) (lowerChars b.isbn.toList) ∨
    ∃ tag ∈ b.tags, IsSubstring (lowerChars text.toList) (lowerChars tag.toList)

/-- The amended search-membership predicate: the query text lowercased and
stripped of leading/trailing whitespace is a substring of the lowercased
title, author, ISBN, or some tag. -/
def amendedSearchMatch (text : String) (b : Book) : Prop :=
  IsSubstring (stripChars (lowerChars text.toList)) (lowerChars b.title.toList) ∨
    IsSubstring (stripChars (lowerChars text.toList)) (lowerChars b.author.toList) ∨
    IsSubstring (stripChars (lowerChars text.toList)) (lowerChars b.isbn.toList) ∨
    ∃ tag ∈ b.tags,
      IsSubstring (stripChars (lowerChars text.toList)) (lowerChars tag.toList)

/-- Internal state invariant maintained by the facade operations: ids are
unique and below the counter, every loan's copy exists, and each copy's
CheckedOut status mirrors the number of open loans on it. -/
structure SysInv (s : LibrarySystem) : Prop where
  copies_nodup : (s.copies.map Copy.copy_id).Nodup
  loans_nodup : (s.loans.map Loan.loan_id).Nodup
  copies_lt : ∀ c ∈ s.copies, c.copy_id < s.nextId
  loans_lt : ∀ l ∈ s.loans, l.loan_id < s.nextId
  loan_copy_ex : ∀ l ∈ s.loans, ∃ c ∈ s.copies, c.copy_id = l.copy_id
  open_count : ∀ c ∈ s.copies,
    openOn s.loans c.copy_id = (if c.status = CopyStatus.CHECKED_OUT then 1 else 0)

/-! ### Concrete states used by witnesses -/

/-- A concrete book whose title is "ax". -/
def bkAx : Book :=
  { book_id := 0, title := "ax", author := "q", isbn := "z", tags := [] }

/-- A concrete facade trace: one user, one book with two copies, a
reservation, and a successful checkout. -/
def demoOps : List Op :=
  [Op.createUser "a" "a@x" Role.MEMBER,
   Op.addBook "ax" "q" "z" [] 2,
   Op.reserve 0 1 10,
   Op.checkout 0 1 100]

/-- The state reached by `demoOps`. -/
def demoState : LibrarySystem := runOps demoOps

/-- The demo state before its final checkout. -/
def demoPre : LibrarySystem := runOps (demoOps.take 3)

/-- The loan created by the final checkout of `demoOps`. -/
def demoLoan : Loan :=
  { loan_id := 5, user_id := 0, copy_id := 2, checkout_at := 100,
    due_at := 1209700, returned_at := none }

/-- The reservation placed by the third operation of `demoOps`. -/
def demoRes : Reservation :=
  { reservation_id := 4, user_id := 0, book_id := 1, placed_at := 10,
    status := ReservationStatus.ACTIVE }

/-- A concrete unpaid fine of 50 minor units owned by user 0. -/
def demoFine : Fine :=
  { fine_id := 9, user_id := 0, amount_cents := 50, reason := "overdue",
    created_at := 0, paid_at := none }

/-- A loan due at 1000000 and returned exactly 3 calendar days later. -/
def demoLoanLate : Loan :=
  { loan_id := 3, user_id := 0, copy_id := 2, checkout_at := 0,
    due_at := 1000000, returned_at := some 1259200 }

/-- A loan returned exactly at its due time. -/
def demoLoanOnTime : Loan :=
  { loan_id := 3, user_id := 0, copy_id := 2, checkout_at := 0,
    due_at := 1000000, returned_at := some 1000000 }

/-! ## Theorems -/

theorem listStartsWith_iff (ps cs : List Char) :
    listStartsWith ps cs = true ↔ ∃ rest, cs = ps ++ rest := by
  induction ps generalizing cs with
  | nil => simp [listStartsWith]
  | cons p ps ih =>
    cases cs with
    | nil => simp [listStartsWith]
    | cons c cs =>
      simp only [listStartsWith, Bool.and_eq_true, beq_iff_eq, ih, List.cons_append,
        List.cons.injEq]
      constructor
      · rintro ⟨rfl, rest, rfl⟩
        exact ⟨rest, rfl, rfl⟩
      · rintro ⟨rest, rfl, rfl⟩
        exact ⟨rfl, rest, rfl⟩

theorem listContainsSub_iff (n h : List Char) :
    listContainsSub n h = true ↔ IsSubstring n h := by
  induction h with
  | nil =>
    simp only [listContainsSub, listStartsWith_iff, IsSubstring]
    constructor
    · rintro ⟨rest, hr⟩
      exact ⟨[], rest, by simpa using hr⟩
    · rintro ⟨pre, post, hp⟩
      have h0 : pre ++ (n ++ post) = [] := by simpa using hp.symm
      rcases List.append_eq_nil.mp h0 with ⟨rfl, h1⟩
      rcases List.append_eq_nil.mp h1 with ⟨rfl, rfl⟩
      exact ⟨[], rfl⟩
  | cons c cs ih =>
    simp only [listContainsSub, Bool.or_eq_true, listStartsWith_iff, ih, IsSubstring]
    constructor
    · rintro (⟨rest, hr⟩ | ⟨pre, post, hp⟩)
      · exact ⟨[], rest, by simpa using hr⟩
      · exact ⟨c :: pre, post, by simp [hp]⟩
    · rintro ⟨pre, post, hp⟩
      cases pre with
      | nil => exact Or.inl ⟨post, by simpa using hp⟩
      | cons a pre =>
        rcases List.cons.injEq .. ▸ hp with ⟨rfl, htl⟩
        exact Or.inr ⟨pre, post, htl⟩

theorem strContainsLower_iff (t : List Char) (s : String) :
    strContainsLower t s = true ↔ IsSubstring t (lowerChars s.toList) := by
  unfold strContainsLower
  exact listContainsSub_iff _ _

/-- C9 (amended): `searchBooks(text)` returns exactly those books for which
text, lowercased and stripped of leading/trailing whitespace, is a substring
of the lowercased title, author, ISBN, or some tag. -/
theorem spec_C9_search_characterization (books : List Book) (text : String) (b : Book) :
    b ∈ BookRepo.search books text ↔ b ∈ books ∧ amendedSearchMatch text b := by
  unfold BookRepo.search BookRepo.matchesQuery amendedSearchMatch
  simp only [List.mem_filter, Bool.or_eq_true, List.any_eq_true,
    strContainsLower_iff, or_assoc]

/-- C9 (counterexample): the claim says the raw query text is matched, but
the code strips it: searching " x" returns the book titled "ax" even though
" x" is not a substring of any of its fields. -/
theorem spec_C9_counterexample :
    BookRepo.search [bkAx] " x" = [bkAx] ∧ ¬ claimSearchMatch " x" bkAx := by
  refine ⟨rfl, ?_⟩
  intro h
  rcases h with h | h | h | ⟨tag, ht, h⟩
  · rw [← listContainsSub_iff] at h
    exact absurd h (by decide)
  · rw [← listContainsSub_iff] at h
    exact absurd h (by decide)
  · rw [← listContainsSub_iff] at h
    exact absurd h (by decide)
  · simp [bkAx] at ht

theorem nodup_key_inj {α : Type} {f : α → Nat} {l : List α} (h : (l.map f).Nodup)
    {a b : α} (ha : a ∈ l) (hb : b ∈ l) (hf : f a = f b) : a = b := by
  induction l with
  | nil => cases ha
  | cons x xs ih =>
    rw [List.map_cons, List.nodup_cons] at h
    rcases List.mem_cons.mp ha with rfl | ha' <;>
      rcases List.mem_cons.mp hb with rfl | hb'
    · rfl
    · exact absurd (hf ▸ List.mem_map_of_mem f hb') h.1
    · exact absurd (hf ▸ List.mem_map_of_mem f ha') h.1
    · exact ih h.2 ha' hb'

theorem mem_avail_iff {copies : List Copy} {book_id cid : Nat} :
    cid ∈ BookRepo.list_available_copy_ids copies book_id ↔
      ∃ c ∈ copies, c.copy_id = cid ∧ c.book_id = book_id ∧
        c.status = CopyStatus.AVAILABLE := by
  unfold BookRepo.list_available_copy_ids BookRepo.list_copies_for_book
  simp only [List.mem_map, List.mem_filter, beq_iff_eq]
  constructor
  · rintro ⟨c, ⟨⟨hc, hb⟩, hs⟩, rfl⟩
    exact ⟨c, hc, rfl, hb, hs⟩
  · rintro ⟨c, hc, rfl, hb, hs⟩
    exact ⟨c, ⟨⟨hc, hb⟩, hs⟩, rfl⟩

theorem get_copy_isSome_of_mem_avail {copies : List Copy} {book_id cid : Nat}
    (h : cid ∈ BookRepo.list_available_copy_ids copies book_id) :
    (BookRepo.get_copy copies cid).isSome := by
  obtain ⟨c, hc, rfl, _, _⟩ := mem_avail_iff.mp h
  unfold BookRepo.get_copy
  rw [List.find?_isSome]
  exact ⟨c, hc, by simp⟩

theorem firstExistingCopy_none_iff {copies : List Copy} {ids : List Nat}
    (h : ∀ cid ∈ ids, (BookRepo.get_copy copies cid).isSome) :
    firstExistingCopy copies ids = none ↔ ids = [] := by
  cases ids with
  | nil => simp [firstExistingCopy]
  | cons cid rest =>
    have hs := h cid (by simp)
    unfold firstExistingCopy
    cases hg : BookRepo.get_copy copies cid with
    | none => rw [hg] at hs; simp at hs
    | some c => simp

theorem firstExistingCopy_mem {copies : List Copy} {ids : List Nat} {c : Copy}
    (h : firstExistingCopy copies ids = some c) :
    ∃ cid ∈ ids, BookRepo.get_copy copies cid = some c := by
  induction ids with
  | nil => simp [firstExistingCopy] at h
  | cons cid rest ih =>
    unfold firstExistingCopy at h
    cases hg : BookRepo.get_copy copies cid with
    | none =>
      rw [hg] at h
      obtain ⟨cid', hmem, hc⟩ := ih h
      exact ⟨cid', by simp [hmem], hc⟩
    | some c0 =>
      rw [hg] at h
      obtain rfl : c0 = c := by injection h
      exact ⟨cid, by simp, hg⟩

theorem avail_empty_iff {copies : List Copy} {book_id : Nat} :
    BookRepo.list_available_copy_ids copies book_id = [] ↔
      ∀ c ∈ copies, c.book_id = book_id → c.status ≠ CopyStatus.AVAILABLE := by
  unfold BookRepo.list_available_copy_ids BookRepo.list_copies_for_book
  simp [List.map_eq_nil_iff, List.filter_eq_nil_iff, List.mem_filter]
  exact ⟨fun h c hc hb hs => h c hc hs hb, fun h c hc hs hb => h c hc hb hs⟩

theorem checkoutAvailable_fst_none_iff (s : LibrarySystem) (u b now : Nat)
    (q : List Reservation) :
    (CirculationService.checkoutAvailable s u b now q).1 = none ↔
      BookRepo.list_available_copy_ids s.copies b = [] := by
  unfold CirculationService.checkoutAvailable
  cases hf : firstExistingCopy s.copies (BookRepo.list_available_copy_ids s.copies b) with
  | none =>
    simp only [true_iff]
    exact (firstExistingCopy_none_iff fun cid hc => get_copy_isSome_of_mem_avail hc).mp hf
  | some c =>
    simp only [reduceCtorEq, false_iff]
    intro hnil
    rw [hnil] at hf
    simp [firstExistingCopy] at hf

theorem checkoutAvailable_none_frame (s : LibrarySystem) (u b now : Nat)
    (q : List Reservation)
    (h : (CirculationService.checkoutAvailable s u b now q).1 = none) :
    (CirculationService.checkoutAvailable s u b now q).2 = s := by
  unfold CirculationService.checkoutAvailable at h ⊢
  cases hf : firstExistingCopy s.copies (BookRepo.list_available_copy_ids s.copies b) with
  | none => rfl
  | some c => rw [hf] at h; simp at h

theorem checkout_none_frame (s : LibrarySystem) (user_id book_id now : Nat)
    (h : (CirculationService.checkout_first_available s user_id book_id now).1 = none) :
    (CirculationService.checkout_first_available s user_id book_id now).2 = s := by
  unfold CirculationService.checkout_first_available at h ⊢
  cases hu : UserRepo.get s.users user_id with
  | none => rfl
  | some u =>
    rw [hu] at h
    by_cases hcb : u.can_borrow
    · simp only [hcb, Bool.not_true, Bool.false_eq_true, if_false] at h ⊢
      cases hq : ReservationRepo.list_active_for_book s.reservations book_id with
      | nil =>
        simp only [hq] at h ⊢
        exact checkoutAvailable_none_frame _ _ _ _ _ h
      | cons q0 qs =>
        simp only [hq] at h ⊢
        by_cases hq0 : q0.user_id = user_id
        · simp only [hq0, bne_self_eq_false, Bool.false_eq_true, if_false] at h ⊢
          exact checkoutAvailable_none_frame _ _ _ _ _ h
        · simp only [bne_iff_ne, ne_eq, hq0, not_false_eq_true, if_true]
    · simp [hcb]

/-- C10: a denied checkout (for any reason) leaves the entire system state
unchanged: no copy status, loan, reservation or fine is modified. -/
theorem spec_C10_checkout_denial_atomic (s : LibrarySystem) (user_id book_id now : Nat)
    (h : (CirculationService.checkout_first_available s user_id book_id now).1 = none) :
    (CirculationService.checkout_first_available s user_id book_id now).2 = s :=
  checkout_none_frame s user_id book_id now h

/-- C2: `checkout` returns no loan (and never raises) exactly when the user
is absent or cannot borrow, or the Active FIFO queue of the book is headed by
another user, or no copy of the book is Available. -/
theorem spec_C2_checkout_denial_conditions (s : LibrarySystem) (user_id book_id now : Nat) :
    (CirculationService.checkout_first_available s user_id book_id now).1 = none ↔
      ((UserRepo.get s.users user_id = none ∨
          ∃ u, UserRepo.get s.users user_id = some u ∧ u.can_borrow = false) ∨
        (∃ q0 qs,
            ReservationRepo.list_active_for_book s.reservations book_id = q0 :: qs ∧
            q0.user_id ≠ user_id) ∨
        ∀ c ∈ s.copies, c.book_id = book_id → c.status ≠ CopyStatus.AVAILABLE) := by
  unfold CirculationService.checkout_first_available
  cases hu : UserRepo.get s.users user_id with
  | none => exact iff_of_true rfl (Or.inl (Or.inl rfl))
  | some u =>
    by_cases hcb : u.can_borrow
    · simp only [hcb, Bool.not_true, Bool.false_eq_true, if_false]
      cases hq : ReservationRepo.list_active_for_book s.reservations book_id with
      | nil =>
        rw [checkoutAvailable_fst_none_iff, avail_empty_iff]
        constructor
        · exact fun h => Or.inr (Or.inr h)
        · rintro ((h1 | ⟨u', hu', hf⟩) | ⟨a, b, heq, hne⟩ | h3)
          · exact Option.noConfusion h1
          · injection hu' with e
            rw [← e, hcb] at hf
            exact Bool.noConfusion hf
          · exact List.noConfusion heq
          · exact h3
      | cons q0 qs =>
        by_cases hq0 : q0.user_id = user_id
        · simp only [hq0, bne_self_eq_false, Bool.false_eq_true, if_false]
          rw [checkoutAvailable_fst_none_iff, avail_empty_iff]
          constructor
          · exact fun h => Or.inr (Or.inr h)
          · rintro ((h1 | ⟨u', hu', hf⟩) | ⟨a, b, heq, hne⟩ | h3)
            · exact Option.noConfusion h1
            · injection hu' with e
              rw [← e, hcb] at hf
              exact Bool.noConfusion hf
            · injection heq with e1 e2
              rw [← e1] at hne
              exact absurd hq0 hne
            · exact h3
        · have hbne : (q0.user_id != user_id) = true := by simpa [bne_iff_ne] using hq0
          simp only [hbne, if_true]
          exact iff_of_true trivial (Or.inr (Or.inl ⟨q0, qs, rfl, hq0⟩))
    · have hcf : u.can_borrow = false := by simpa using hcb
      simp only [hcf, Bool.not_false, if_true]
      exact iff_of_true trivial (Or.inl (Or.inr ⟨u, rfl, hcf⟩))

theorem find?_map_replace {α : Type} (key : α → Nat) (l : List α) (x : α) :
    (l.map (fun y => if key y == key x then x else y)).find? (fun y => key y == key x) =
      if l.any (fun y => key y == key x) then some x else none := by
  induction l with
  | nil => rfl
  | cons y ys ih =>
    by_cases h : key y == key x
    · simp only [List.map_cons, h, if_true, List.any_cons, Bool.true_or]
      exact List.find?_cons_of_pos _ (by simp)
    · have h' : (key y == key x) = false := by simpa using h
      simp only [List.map_cons, h', Bool.false_eq_true, if_false, List.any_cons,
        Bool.false_or]
      rw [List.find?_cons_of_neg _ (by simp [h']), ih]

theorem find?_dictAdd_self {α : Type} (key : α → Nat) (l : List α) (x : α) :
    (dictAdd key l x).find? (fun y => key y == key x) = some x := by
  unfold dictAdd
  by_cases h : l.any (fun y => key y == key x)
  · rw [if_pos h, find?_map_replace, if_pos h]
  · rw [if_neg h, List.find?_append]
    have : l.find? (fun y => key y == key x) = none := by
      rw [List.find?_eq_none]
      intro y hy
      simp only [Bool.not_eq_true] at h ⊢
      rw [List.any_eq_false] at h
      simpa using h y hy
    rw [this]
    simp [List.find?]

theorem mem_dictAdd_self {α : Type} (key : α → Nat) (l : List α) (x : α) :
    x ∈ dictAdd key l x := by
  unfold dictAdd
  by_cases h : l.any (fun y => key y == key x)
  · rw [if_pos h]
    rw [List.any_eq_true] at h
    obtain ⟨y, hy, hk⟩ := h
    exact List.mem_map.mpr ⟨y, hy, by simp [hk]⟩
  · rw [if_neg h]
    simp

theorem get_copy_setCopyStatus_same (copies : List Copy) (cid : Nat) (st : CopyStatus) :
    BookRepo.get_copy (setCopyStatus copies cid st) cid =
      (BookRepo.get_copy copies cid).map (fun c => { c with status := st }) := by
  unfold BookRepo.get_copy setCopyStatus
  induction copies with
  | nil => rfl
  | cons c cs ih =>
    by_cases h : c.copy_id == cid
    · have hc : c.copy_id = cid := by simpa using h
      simp only [List.map_cons, h, if_true]
      rw [List.find?_cons_of_pos _ (by simpa using hc),
        List.find?_cons_of_pos _ (by simpa using hc)]
      rfl
    · have h' : (c.copy_id == cid) = false := by simpa using h
      simp only [List.map_cons, h', Bool.false_eq_true, if_false]
      rw [List.find?_cons_of_neg _ (by simp [h']),
        List.find?_cons_of_neg _ (by simp [h']), ih]

theorem checkoutAvailable_some (s : LibrarySystem) (u b now : Nat)
    (q : List Reservation) (loan : Loan)
    (h : (CirculationService.checkoutAvailable s u b now q).1 = some loan) :
    ∃ c, firstExistingCopy s.copies (BookRepo.list_available_copy_ids s.copies b) = some c ∧
      loan = { loan_id := s.nextId, user_id := u, copy_id := c.copy_id,
               checkout_at := now, due_at := now + default_loan_days * secondsPerDay,
               returned_at := none } ∧
      (CirculationService.checkoutAvailable s u b now q).2 =
        { s with
            copies := setCopyStatus s.copies c.copy_id CopyStatus.CHECKED_OUT
            loans := dictAdd Loan.loan_id s.loans loan
            reservations := fulfillFirst s.reservations q u
            nextId := s.nextId + 1 } := by
  unfold CirculationService.checkoutAvailable at h ⊢
  cases hf : firstExistingCopy s.copies (BookRepo.list_available_copy_ids s.copies b) with
  | none => rw [hf] at h; exact Option.noConfusion h
  | some c =>
    rw [hf] at h
    injection h with e
    subst e
    exact ⟨c, rfl, rfl, rfl⟩

theorem checkout_some (s : LibrarySystem) (user_id book_id now : Nat) (loan : Loan)
    (h : (CirculationService.checkout_first_available s user_id book_id now).1 = some loan) :
    ∃ u, UserRepo.get s.users user_id = some u ∧ u.can_borrow = true ∧
      (∀ q0 qs, ReservationRepo.list_active_for_book s.reservations book_id = q0 :: qs →
        q0.user_id = user_id) ∧
      CirculationService.checkout_first_available s user_id book_id now =
        CirculationService.checkoutAvailable s user_id book_id now
          (ReservationRepo.list_active_for_book s.reservations book_id) := by
  unfold CirculationService.checkout_first_available at h ⊢
  cases hu : UserRepo.get s.users user_id with
  | none =>
    rw [hu] at h
    exact Option.noConfusion h
  | some u =>
    rw [hu] at h
    by_cases hcb : u.can_borrow
    · simp only [hcb, Bool.not_true, Bool.false_eq_true, if_false] at h ⊢
      cases hq : ReservationRepo.list_active_for_book s.reservations book_id with
      | nil =>
        simp only [hq] at h ⊢
        exact ⟨u, rfl, hcb, fun q0 qs hc => List.noConfusion hc, trivial⟩
      | cons q0 qs =>
        simp only [hq] at h ⊢
        by_cases hq0 : q0.user_id = user_id
        · simp only [hq0, bne_self_eq_false, Bool.false_eq_true, if_false] at h ⊢
          refine ⟨u, rfl, hcb, ?_, trivial⟩
          rintro a b hab
          injection hab with e1 e2
          rw [← e1]
          exact hq0
        · have hbne : (q0.user_id != user_id) = true := by simpa [bne_iff_ne] using hq0
          rw [if_pos hbne] at h
          exact Option.noConfusion h
    · have hcf : u.can_borrow = false := by simpa using hcb
      simp only [hcf, Bool.not_false, if_true] at h
      exact Option.noConfusion h

/-- C3: a successful `checkout(userId, bookId, now)` persists the returned
loan, which references the requesting user, is stamped `checkout_at = now`,
`due_at = now + 14 days`, is open, and takes a copy of the requested book
that was Available before the call and is CheckedOut after it. -/
theorem spec_C3_checkout_success (s : LibrarySystem) (user_id book_id now : Nat)
    (loan : Loan) (hnd : (s.copies.map Copy.copy_id).Nodup)
    (h : (CirculationService.checkout_first_available s user_id book_id now).1 = some loan) :
    LoanRepo.get (CirculationService.checkout_first_available s user_id book_id now).2.loans
        loan.loan_id = some loan ∧
    loan.user_id = user_id ∧ loan.checkout_at = now ∧
    loan.due_at = now + 14 * secondsPerDay ∧ loan.returned_at = none ∧
    ∃ c ∈ s.copies, c.copy_id = loan.copy_id ∧ c.book_id = book_id ∧
      c.status = CopyStatus.AVAILABLE ∧
      BookRepo.get_copy
          (CirculationService.checkout_first_available s user_id book_id now).2.copies
          loan.copy_id = some { c with status := CopyStatus.CHECKED_OUT } := by
  obtain ⟨u, hu, hcb, hqh, heq⟩ := checkout_some s user_id book_id now loan h
  rw [heq] at h ⊢
  obtain ⟨c0, hf, hloan, hs'⟩ := checkoutAvailable_some s user_id book_id now _ loan h
  obtain ⟨cid, hcidmem, hget⟩ := firstExistingCopy_mem hf
  have hc0mem : c0 ∈ s.copies := List.mem_of_find?_eq_some hget
  have hc0id : c0.copy_id = cid := by simpa using List.find?_some hget
  obtain ⟨c', hc'mem, hc'id, hc'book, hc'stat⟩ := mem_avail_iff.mp hcidmem
  have hcc : c0 = c' := nodup_key_inj hnd hc0mem hc'mem (by rw [hc'id, hc0id])
  subst hcc
  subst hloan
  rw [hs']
  have hget' : BookRepo.get_copy s.copies c0.copy_id = some c0 := by
    rw [hc0id]; exact hget
  refine ⟨?_, rfl, rfl, rfl, rfl, ⟨c0, hc0mem, rfl, hc'book, hc'stat, ?_⟩⟩
  · exact find?_dictAdd_self Loan.loan_id s.loans _
  · show BookRepo.get_copy (setCopyStatus s.copies c0.copy_id CopyStatus.CHECKED_OUT)
        c0.copy_id = some { c0 with status := CopyStatus.CHECKED_OUT }
    rw [get_copy_setCopyStatus_same, hget']
    rfl

/-- C8: `return_copy` never modifies any reservation: the reservation store
after the call (denied or successful) is exactly the store before it; the
"next in queue" notification is a print only. -/
theorem spec_C8_return_reservations_frame (s : LibrarySystem) (loan_id now : Nat) :
    (CirculationService.return_copy s loan_id now).2.reservations = s.reservations := by
  unfold CirculationService.return_copy
  cases h : LoanRepo.get s.loans loan_id with
  | none => rfl
  | some loan =>
    by_cases hr : loan.returned_at.isSome
    · simp [hr]
    · simp [hr]

theorem overdueDays_late (loan : Loan) (now r : Nat)
    (hret : loan.returned_at = some r) (hlt : loan.due_at < r) :
    FineService.overdueDays loan now =
      some ((dateOf r : Int) - (dateOf loan.due_at : Int)) := by
  unfold FineService.overdueDays
  simp [hret, hlt]

theorem overdueDays_open (loan : Loan) (now : Nat)
    (hret : loan.returned_at = none) (hlt : loan.due_at < now) :
    FineService.overdueDays loan now =
      some ((dateOf now : Int) - (dateOf loan.due_at : Int)) := by
  unfold FineService.overdueDays
  simp [hret, Loan.is_overdue, hlt]

theorem overdueDays_returned_ontime (loan : Loan) (now r : Nat)
    (hret : loan.returned_at = some r) (hle : r ≤ loan.due_at) :
    FineService.overdueDays loan now = none := by
  unfold FineService.overdueDays
  simp [hret, not_lt.mpr hle]

theorem overdueDays_open_ontime (loan : Loan) (now : Nat)
    (hret : loan.returned_at = none) (hle : now ≤ loan.due_at) :
    FineService.overdueDays loan now = none := by
  unfold FineService.overdueDays
  simp [hret, Loan.is_overdue, not_lt.mpr hle]

theorem assess_of_days_none (fines : List Fine) (nid : Nat) {loan : Loan} {now : Nat}
    (h : FineService.overdueDays loan now = none) :
    FineService.assess_overdue_fine fines nid loan now = (none, fines, nid) := by
  unfold FineService.assess_overdue_fine
  rw [h]

theorem assess_of_days_nonpos (fines : List Fine) (nid : Nat) {loan : Loan} {now : Nat}
    {d : Int} (h : FineService.overdueDays loan now = some d) (hle : d ≤ 0) :
    FineService.assess_overdue_fine fines nid loan now = (none, fines, nid) := by
  unfold FineService.assess_overdue_fine
  rw [h]
  have hmax : max 0 d = 0 := max_eq_left hle
  simp [hmax]

theorem assess_of_days_pos (fines : List Fine) (nid : Nat) {loan : Loan} {now : Nat}
    {d : Int} (h : FineService.overdueDays loan now = some d) (hpos : 0 < d) :
    ∃ f, FineService.assess_overdue_fine fines nid loan now =
        (some f, dictAdd Fine.fine_id fines f, nid + 1) ∧
      (f.amount_cents : Int) = d * 50 ∧ f.user_id = loan.user_id ∧
      f.paid_at = none := by
  unfold FineService.assess_overdue_fine
  rw [h]
  have hmax : max 0 d = d := max_eq_right hpos.le
  simp only [hmax]
  rw [if_neg (by omega)]
  exact ⟨_, rfl, by rw [Int.toNat_of_nonneg (by omega)], rfl, rfl⟩

/-- C4: `assess_overdue_fine` charges 50 minor units per whole calendar day
of lateness — measured `date(returned_at) − date(due_at)` for a late return,
`date(now) − date(due_at)` for an open overdue loan — persists the fine
exactly when that day count is positive, and returns none leaving the fine
store untouched when the loan is on time or the day count is not positive. -/
theorem spec_C4_fine_assessment (loan : Loan) (now : Nat) (fines : List Fine) (nid : Nat) :
    (∀ r, loan.returned_at = some r → loan.due_at < r →
      (0 < (dateOf r : Int) - (dateOf loan.due_at : Int) →
        ∃ f, (FineService.assess_overdue_fine fines nid loan now).1 = some f ∧
          (f.amount_cents : Int) =
            ((dateOf r : Int) - (dateOf loan.due_at : Int)) * 50 ∧
          f.user_id = loan.user_id ∧ f.paid_at = none ∧
          (FineService.assess_overdue_fine fines nid loan now).2.1 =
            dictAdd Fine.fine_id fines f) ∧
      ((dateOf r : Int) - (dateOf loan.due_at : Int) ≤ 0 →
        (FineService.assess_overdue_fine fines nid loan now).1 = none ∧
        (FineService.assess_overdue_fine fines nid loan now).2.1 = fines)) ∧
    (loan.returned_at = none → loan.due_at < now →
      (0 < (dateOf now : Int) - (dateOf loan.due_at : Int) →
        ∃ f, (FineService.assess_overdue_fine fines nid loan now).1 = some f ∧
          (f.amount_cents : Int) =
            ((dateOf now : Int) - (dateOf loan.due_at : Int)) * 50 ∧
          f.user_id = loan.user_id ∧ f.paid_at = none ∧
          (FineService.assess_overdue_fine fines nid loan now).2.1 =
            dictAdd Fine.fine_id fines f) ∧
      ((dateOf now : Int) - (dateOf loan.due_at : Int) ≤ 0 →
        (FineService.assess_overdue_fine fines nid loan now).1 = none ∧
        (FineService.assess_overdue_fine fines nid loan now).2.1 = fines)) ∧
    (∀ r, loan.returned_at = some r → r ≤ loan.due_at →
      (FineService.assess_overdue_fine fines nid loan now).1 = none ∧
      (FineService.assess_overdue_fine fines nid loan now).2.1 = fines) ∧
    (loan.returned_at = none → now ≤ loan.due_at →
      (FineService.assess_overdue_fine fines nid loan now).1 = none ∧
      (FineService.assess_overdue_fine fines nid loan now).2.1 = fines) := by
  refine ⟨?_, ?_, ?_, ?_⟩
  · intro r hret hlt
    constructor
    · intro hpos
      obtain ⟨f, heq, ha, hu, hp⟩ := assess_of_days_pos fines nid
        (overdueDays_late loan now r hret hlt) hpos
      exact ⟨f, by rw [heq], ha, hu, hp, by rw [heq]⟩
    · intro hle
      have heq := assess_of_days_nonpos fines nid
        (overdueDays_late loan now r hret hlt) hle
      exact ⟨by rw [heq], by rw [heq]⟩
  · intro hret hlt
    constructor
    · intro hpos
      obtain ⟨f, heq, ha, hu, hp⟩ := assess_of_days_pos fines nid
        (overdueDays_open loan now hret hlt) hpos
      exact ⟨f, by rw [heq], ha, hu, hp, by rw [heq]⟩
    · intro hle
      have heq := assess_of_days_nonpos fines nid
        (overdueDays_open loan now hret hlt) hle
      exact ⟨by rw [heq], by rw [heq]⟩
  · intro r hret hler
    have heq := assess_of_days_none fines nid
      (overdueDays_returned_ontime loan now r hret hler)
    exact ⟨by rw [heq], by rw [heq]⟩
  · intro hret hle
    have heq := assess_of_days_none fines nid
      (overdueDays_open_ontime loan now hret hle)
    exact ⟨by rw [heq], by rw [heq]⟩

/-- Witness for C4: a loan due 3 calendar days before its return yields a
fine of exactly 150 minor units, and a return exactly on the due time
yields no fine. -/
theorem spec_C4_fine_assessment_witness :
    (∃ f, (FineService.assess_overdue_fine [] 7 demoLoanLate 0).1 = some f ∧
        (f.amount_cents : Int) = 150) ∧
    (FineService.assess_overdue_fine [] 7 demoLoanOnTime 0).1 = none := by
  constructor
  · obtain ⟨f, h1, h2, h3, h4, h5⟩ :=
      ((spec_C4_fine_assessment demoLoanLate 0 [] 7).1 1259200 rfl (by decide)).1 (by decide)
    refine ⟨f, h1, ?_⟩
    rw [h2]
    decide
  · exact ((spec_C4_fine_assessment demoLoanOnTime 0 [] 7).2.2.1 1000000 rfl
      (by decide)).1

/-- C6: `pay_all` returns the user's full unpaid total and marks exactly
those fines paid; a second immediate call returns 0 and changes nothing;
no fine's identity, owner, amount, reason or creation time changes, and
only previously-unpaid fines of the user gain a paid timestamp. -/
theorem spec_C6_pay_all_idempotent (fines : List Fine) (user_id now now2 : Nat) :
    (FineService.pay_all fines user_id now).1 = FineRepo.total_unpaid_cents fines user_id ∧
    FineService.pay_all (FineService.pay_all fines user_id now).2 user_id now2 =
      (0, (FineService.pay_all fines user_id now).2) ∧
    List.Forall₂ (fun f f' =>
        f'.fine_id = f.fine_id ∧ f'.user_id = f.user_id ∧
        f'.amount_cents = f.amount_cents ∧ f'.reason = f.reason ∧
        f'.created_at = f.created_at ∧
        (f.paid_at.isSome ∨ f.user_id ≠ user_id → f' = f) ∧
        (f.paid_at = none → f.user_id = user_id → f'.paid_at = some now))
      fines (FineService.pay_all fines user_id now).2 := by
  have hnone : ∀ f' ∈ (FineService.pay_all fines user_id now).2,
      (f'.user_id == user_id && !f'.is_paid) = false := by
    intro f' hf'
    obtain ⟨f, hf, rfl⟩ := List.mem_map.mp hf'
    by_cases hcond : (f.user_id == user_id && !f.is_paid) = true
    · rw [if_pos hcond]
      simp [Fine.is_paid]
    · rw [if_neg hcond]
      cases hb : (f.user_id == user_id && !f.is_paid) with
      | true => exact absurd hb hcond
      | false => rfl
  have hfilter : FineRepo.list_unpaid_by_user
      (FineService.pay_all fines user_id now).2 user_id = [] := by
    unfold FineRepo.list_unpaid_by_user
    rw [List.filter_eq_nil_iff]
    intro f' hf'
    simp only [Bool.not_eq_true]
    exact hnone f' hf'
  refine ⟨rfl, ?_, ?_⟩
  · have h1 : (FineService.pay_all (FineService.pay_all fines user_id now).2
        user_id now2).1 = 0 := by
      show ((FineRepo.list_unpaid_by_user (FineService.pay_all fines user_id now).2
        user_id).map (fun f => f.amount_cents)).sum = 0
      rw [hfilter]
      rfl
    have h2 : (FineService.pay_all (FineService.pay_all fines user_id now).2
        user_id now2).2 = (FineService.pay_all fines user_id now).2 := by
      show ((FineService.pay_all fines user_id now).2).map _ =
        (FineService.pay_all fines user_id now).2
      rw [List.map_congr_left (fun f' hf' => by
        rw [if_neg (by simp [hnone f' hf'])])]
      exact List.map_id' _
    exact Prod.ext h1 h2
  · show List.Forall₂ _ fines (fines.map _)
    rw [List.forall₂_map_right_iff, List.forall₂_same]
    intro f hf
    by_cases hcond : (f.user_id == user_id && !f.is_paid) = true
    · rw [if_pos hcond]
      have hu : f.user_id = user_id := by
        rcases Bool.and_eq_true .. ▸ hcond with ⟨h1, _⟩
        simpa using h1
      have hp : f.paid_at = none := by
        rcases Bool.and_eq_true .. ▸ hcond with ⟨_, h2⟩
        simpa [Fine.is_paid, Option.isNone_iff_eq_none] using h2
      refine ⟨rfl, rfl, rfl, rfl, rfl, ?_, fun _ _ => rfl⟩
      rintro (hs | hne)
      · rw [hp] at hs; simp at hs
      · exact absurd hu hne
    · rw [if_neg hcond]
      refine ⟨rfl, rfl, rfl, rfl, rfl, fun _ => rfl, ?_⟩
      intro hp hu
      exfalso
      apply hcond
      rw [Bool.and_eq_true]
      refine ⟨beq_iff_eq.mpr hu, ?_⟩
      have hip : f.is_paid = false := by
        unfold Fine.is_paid
        rw [hp]
        rfl
      rw [hip]
      rfl

theorem mem_queue_iff {reservations : List Reservation} {book_id : Nat} {r : Reservation} :
    r ∈ ReservationRepo.list_active_for_book reservations book_id ↔
      r ∈ reservations ∧ r.book_id = book_id ∧ r.status = ReservationStatus.ACTIVE := by
  unfold ReservationRepo.list_active_for_book
  rw [List.Perm.mem_iff (List.perm_insertionSort _ _)]
  simp [List.mem_filter, and_assoc]

theorem queue_sorted (reservations : List Reservation) (book_id : Nat) :
    List.Sorted (fun r₁ r₂ : Reservation => r₁.placed_at ≤ r₂.placed_at)
      (ReservationRepo.list_active_for_book reservations book_id) := by
  unfold ReservationRepo.list_active_for_book
  haveI : IsTotal Reservation (fun r₁ r₂ => r₁.placed_at ≤ r₂.placed_at) :=
    ⟨fun a b => Nat.le_total a.placed_at b.placed_at⟩
  haveI : IsTrans Reservation (fun r₁ r₂ => r₁.placed_at ≤ r₂.placed_at) :=
    ⟨fun a b c hab hbc => Nat.le_trans hab hbc⟩
  exact List.sorted_insertionSort _ _

theorem find?_sorted_min {p : Reservation → Bool} {l : List Reservation} {r0 : Reservation}
    (hs : List.Sorted (fun r₁ r₂ : Reservation => r₁.placed_at ≤ r₂.placed_at) l)
    (hf : l.find? p = some r0) :
    ∀ r ∈ l, p r = true → r0.placed_at ≤ r.placed_at := by
  induction l with
  | nil => cases hf
  | cons x xs ih =>
    rw [List.sorted_cons] at hs
    by_cases hx : p x
    · rw [List.find?_cons_of_pos _ hx] at hf
      injection hf with e
      subst e
      intro r hr hp
      rcases List.mem_cons.mp hr with rfl | hr'
      · exact le_refl _
      · exact hs.1 r hr'
    · rw [List.find?_cons_of_neg _ hx] at hf
      intro r hr hp
      rcases List.mem_cons.mp hr with rfl | hr'
      · exact absurd hp hx
      · exact ih hs.2 hf r hr' hp

/-- C5: on a successful checkout, when the user holds an Active reservation
for the book, the earliest-placed such reservation (the first match in the
Active FIFO queue) transitions to Fulfilled and every other reservation is
unchanged. -/
theorem spec_C5_reservation_fulfilment (s : LibrarySystem) (user_id book_id now : Nat)
    (loan : Loan)
    (hnd : (s.reservations.map Reservation.reservation_id).Nodup)
    (h : (CirculationService.checkout_first_available s user_id book_id now).1 = some loan)
    (hres : ∃ r ∈ s.reservations, r.user_id = user_id ∧ r.book_id = book_id ∧
      r.status = ReservationStatus.ACTIVE) :
    ∃ r0 ∈ s.reservations, r0.user_id = user_id ∧ r0.book_id = book_id ∧
      r0.status = ReservationStatus.ACTIVE ∧
      (∀ r ∈ s.reservations, r.user_id = user_id → r.book_id = book_id →
        r.status = ReservationStatus.ACTIVE → r0.placed_at ≤ r.placed_at) ∧
      List.Forall₂ (fun r r' =>
          (r = r0 → r' = { r0 with status := ReservationStatus.FULFILLED }) ∧
          (r ≠ r0 → r' = r))
        s.reservations
        (CirculationService.checkout_first_available s user_id book_id now).2.reservations := by
  obtain ⟨u, hu, hcb, hqh, heq⟩ := checkout_some s user_id book_id now loan h
  rw [heq] at h ⊢
  obtain ⟨c0, hf, hloan, hs'⟩ := checkoutAvailable_some s user_id book_id now _ loan h
  rw [hs']
  obtain ⟨rw0, hrwmem, hrwu, hrwb, hrws⟩ := hres
  have hqmem : rw0 ∈ ReservationRepo.list_active_for_book s.reservations book_id :=
    mem_queue_iff.mpr ⟨hrwmem, hrwb, hrws⟩
  have hfind : ((ReservationRepo.list_active_for_book s.reservations book_id).find?
      (fun r => r.user_id == user_id && r.status == ReservationStatus.ACTIVE)).isSome :=
    List.find?_isSome.mpr ⟨rw0, hqmem, by simp [hrwu, hrws]⟩
  obtain ⟨r0, hr0⟩ := Option.isSome_iff_exists.mp hfind
  have hr0q : r0 ∈ ReservationRepo.list_active_for_book s.reservations book_id :=
    List.mem_of_find?_eq_some hr0
  have hr0p := List.find?_some hr0
  have hr0u : r0.user_id = user_id := by
    rcases Bool.and_eq_true .. ▸ hr0p with ⟨h1, _⟩
    simpa using h1
  have hr0s : r0.status = ReservationStatus.ACTIVE := by
    rcases Bool.and_eq_true .. ▸ hr0p with ⟨_, h2⟩
    simpa using h2
  obtain ⟨hr0mem, hr0b, _⟩ := mem_queue_iff.mp hr0q
  refine ⟨r0, hr0mem, hr0u, hr0b, hr0s, ?_, ?_⟩
  · intro r hr hru hrb hrs
    exact find?_sorted_min (queue_sorted s.reservations book_id) hr0 r
      (mem_queue_iff.mpr ⟨hr, hrb, hrs⟩) (by simp [hru, hrs])
  · unfold fulfillFirst
    rw [hr0]
    rw [List.forall₂_map_right_iff, List.forall₂_same]
    intro r hr
    constructor
    · rintro rfl
      rw [if_pos (by simp)]
    · intro hne
      rw [if_neg ?_]
      intro hid
      exact hne (nodup_key_inj hnd hr hr0mem (by simpa using hid))

theorem dictAdd_of_fresh {α : Type} (key : α → Nat) (l : List α) (x : α)
    (h : ∀ y ∈ l, key y ≠ key x) : dictAdd key l x = l ++ [x] := by
  unfold dictAdd
  rw [if_neg]
  intro hany
  rw [List.any_eq_true] at hany
  obtain ⟨y, hy, hk⟩ := hany
  exact h y hy (by simpa using hk)

theorem setCopyStatus_map_id (copies : List Copy) (cid : Nat) (st : CopyStatus) :
    (setCopyStatus copies cid st).map Copy.copy_id = copies.map Copy.copy_id := by
  unfold setCopyStatus
  rw [List.map_map]
  apply List.map_congr_left
  intro c hc
  by_cases h : c.copy_id == cid
  · simp [Function.comp, h]
  · simp [Function.comp, h]

theorem setCopyStatus_preserves_ids (cid : Nat) (st : CopyStatus) {copies : List Copy}
    {c : Copy} (hc : c ∈ copies) :
    ∃ c' ∈ setCopyStatus copies cid st, c'.copy_id = c.copy_id := by
  unfold setCopyStatus
  refine ⟨if c.copy_id == cid then { c with status := st } else c,
    List.mem_map_of_mem _ hc, ?_⟩
  by_cases h : c.copy_id == cid
  · rw [if_pos h]
  · rw [if_neg h]

theorem mem_setCopyStatus {copies : List Copy} {cid : Nat} {st : CopyStatus} {c' : Copy}
    (h : c' ∈ setCopyStatus copies cid st) :
    ∃ c ∈ copies, c' = if c.copy_id == cid then { c with status := st } else c := by
  unfold setCopyStatus at h
  obtain ⟨c, hc, rfl⟩ := List.mem_map.mp h
  exact ⟨c, hc, rfl⟩

theorem assess_nextId_ge (fines : List Fine) (nid : Nat) (loan : Loan) (now : Nat) :
    nid ≤ (FineService.assess_overdue_fine fines nid loan now).2.2 := by
  cases hd : FineService.overdueDays loan now with
  | none =>
    rw [assess_of_days_none fines nid hd]
  | some d =>
    by_cases h : d ≤ 0
    · rw [assess_of_days_nonpos fines nid hd h]
    · obtain ⟨f, heq, _, _, _⟩ := assess_of_days_pos fines nid hd (by omega)
      rw [heq]
      exact Nat.le_succ _

theorem sysInv_empty : SysInv LibrarySystem.empty := by
  refine ⟨?_, ?_, ?_, ?_, ?_, ?_⟩ <;> simp [LibrarySystem.empty, openOn]

theorem sysInv_register (s : LibrarySystem) (name email : String) (role : Role)
    (hI : SysInv s) : SysInv (UserService.register_user s name email role).2 := by
  obtain ⟨h1, h2, h3, h4, h5, h6⟩ := hI
  exact ⟨h1, h2, fun c hc => Nat.lt_succ_of_lt (h3 c hc),
    fun l hl => Nat.lt_succ_of_lt (h4 l hl), h5, h6⟩

theorem sysInv_reserve (s : LibrarySystem) (user_id book_id now : Nat)
    (hI : SysInv s) : SysInv (CirculationService.reserve_book s user_id book_id now).2 := by
  obtain ⟨h1, h2, h3, h4, h5, h6⟩ := hI
  exact ⟨h1, h2, fun c hc => Nat.lt_succ_of_lt (h3 c hc),
    fun l hl => Nat.lt_succ_of_lt (h4 l hl), h5, h6⟩

theorem sysInv_payAll (s : LibrarySystem) (user_id now : Nat) (hI : SysInv s) :
    SysInv { s with fines := (FineService.pay_all s.fines user_id now).2 } := by
  obtain ⟨h1, h2, h3, h4, h5, h6⟩ := hI
  exact ⟨h1, h2, h3, h4, h5, h6⟩

theorem sysInv_addCopy (s : LibrarySystem) (book_id : Nat) (hI : SysInv s) :
    SysInv { s with
      copies := dictAdd Copy.copy_id s.copies
        { copy_id := s.nextId, book_id := book_id, status := CopyStatus.AVAILABLE },
      nextId := s.nextId + 1 } := by
  obtain ⟨h1, h2, h3, h4, h5, h6⟩ := hI
  have hfresh : ∀ c ∈ s.copies, c.copy_id ≠
      ({ copy_id := s.nextId, book_id := book_id,
         status := CopyStatus.AVAILABLE } : Copy).copy_id :=
    fun c hc => Nat.ne_of_lt (h3 c hc)
  rw [dictAdd_of_fresh _ _ _ hfresh]
  have hnoloan : ∀ l ∈ s.loans, l.copy_id ≠ s.nextId := by
    intro l hl
    obtain ⟨c, hc, e⟩ := h5 l hl
    rw [← e]
    exact Nat.ne_of_lt (h3 c hc)
  refine ⟨?_, h2, ?_, fun l hl => Nat.lt_succ_of_lt (h4 l hl), ?_, ?_⟩
  · rw [List.map_append, List.nodup_append]
    refine ⟨h1, List.nodup_singleton _, ?_⟩
    intro a ha hb
    simp only [List.map_cons, List.map_nil, List.mem_singleton] at hb
    obtain ⟨c, hc, rfl⟩ := List.mem_map.mp ha
    exact absurd hb (Nat.ne_of_lt (h3 c hc))
  · intro c hc
    rcases List.mem_append.mp hc with hc' | hc'
    · exact Nat.lt_succ_of_lt (h3 c hc')
    · rw [List.mem_singleton] at hc'
      rw [hc']
      exact Nat.lt_succ_self _
  · intro l hl
    obtain ⟨c, hc, e⟩ := h5 l hl
    exact ⟨c, List.mem_append_left _ hc, e⟩
  · intro c hc
    rcases List.mem_append.mp hc with hc' | hc'
    · exact h6 c hc'
    · rw [List.mem_singleton] at hc'
      rw [hc']
      simp only [if_neg (by simp : ¬ (CopyStatus.AVAILABLE = CopyStatus.CHECKED_OUT))]
      unfold openOn
      rw [List.countP_eq_zero]
      intro l hl
      simp only [Bool.and_eq_true, beq_iff_eq, Bool.not_eq_true]
      intro hcontra
      exact absurd hcontra.1 (hnoloan l hl)

theorem sysInv_addCopies (book_id n : Nat) :
    ∀ s : LibrarySystem, SysInv s → SysInv (addCopies s book_id n) := by
  induction n with
  | zero => exact fun s h => h
  | succ n ih =>
    intro s h
    exact ih _ (sysInv_addCopy s book_id h)

theorem sysInv_addBook (s : LibrarySystem) (title author isbn : String)
    (tags : List String) (copies : Nat) (hI : SysInv s) :
    SysInv (CatalogService.add_book_with_copies s title author isbn tags copies).2 := by
  apply sysInv_addCopies
  obtain ⟨h1, h2, h3, h4, h5, h6⟩ := hI
  exact ⟨h1, h2, fun c hc => Nat.lt_succ_of_lt (h3 c hc),
    fun l hl => Nat.lt_succ_of_lt (h4 l hl), h5, h6⟩

theorem openOn_append_new (loans : List Loan) (loan : Loan) (k : Nat)
    (hopen : loan.returned_at = none) :
    openOn (loans ++ [loan]) k = openOn loans k + (if loan.copy_id = k then 1 else 0) := by
  unfold openOn
  rw [List.countP_append]
  congr 1
  rw [List.countP_cons]
  simp [hopen, beq_iff_eq]

theorem openOn_close_loan {loans : List Loan} {lid : Nat} {loan : Loan} (now : Nat)
    (hnd : (loans.map Loan.loan_id).Nodup)
    (hfind : LoanRepo.get loans lid = some loan)
    (hopen : loan.returned_at = none) (k : Nat) :
    openOn (loans.map (fun l => if l.loan_id == lid then
        { loan with returned_at := some now } else l)) k +
      (if loan.copy_id = k then 1 else 0) = openOn loans k := by
  unfold LoanRepo.get at hfind
  unfold openOn
  induction loans with
  | nil => cases hfind
  | cons x xs ih =>
    rw [List.map_cons, List.nodup_cons] at hnd
    by_cases hx : x.loan_id == lid
    · rw [List.find?_cons_of_pos (p := fun l : Loan => l.loan_id == lid) _ hx] at hfind
      injection hfind with e
      subst e
      rw [List.map_cons, if_pos hx]
      have htail : xs.map (fun l => if l.loan_id == lid then
          { x with returned_at := some now } else l) = xs := by
        rw [List.map_congr_left (fun l hl => by
          rw [if_neg fun hc => hnd.1 (by
            rw [(by simpa using hx : x.loan_id = lid), ← (by simpa using hc : l.loan_id = lid)]
            exact List.mem_map_of_mem _ hl)])]
        exact List.map_id' _
      rw [htail, List.countP_cons, List.countP_cons]
      have hx' : (x.copy_id == k && (x.returned_at).isNone) = (decide (x.copy_id = k)) := by
        rw [hopen]
        by_cases h : x.copy_id = k <;> simp [h]
      rw [hx']
      simp only [Option.isNone_some, Bool.and_false, if_neg (by simp : ¬False)]
      by_cases hck : x.copy_id = k
      · simp [hck]
      · simp [hck]
    · rw [List.find?_cons_of_neg (p := fun l : Loan => l.loan_id == lid) _ hx] at hfind
      rw [List.map_cons, if_neg hx, List.countP_cons, List.countP_cons]
      have := ih hnd.2 hfind
      omega

theorem sysInv_checkout (s : LibrarySystem) (user_id book_id now : Nat) (hI : SysInv s) :
    SysInv (CirculationService.checkout_first_available s user_id book_id now).2 := by
  cases hres : (CirculationService.checkout_first_available s user_id book_id now).1 with
  | none =>
    rw [checkout_none_frame s user_id book_id now hres]
    exact hI
  | some loan =>
    obtain ⟨u, hu, hcb, hqh, heq⟩ := checkout_some s user_id book_id now loan hres
    rw [heq] at hres ⊢
    obtain ⟨c0, hf, hloan, hs'⟩ := checkoutAvailable_some s user_id book_id now _ loan hres
    rw [hs']
    obtain ⟨h1, h2, h3, h4, h5, h6⟩ := hI
    obtain ⟨cid, hcidmem, hget⟩ := firstExistingCopy_mem hf
    have hc0mem : c0 ∈ s.copies := List.mem_of_find?_eq_some hget
    have hc0id : c0.copy_id = cid := by simpa using List.find?_some hget
    obtain ⟨c', hc'mem, hc'id, hc'book, hc'stat⟩ := mem_avail_iff.mp hcidmem
    have hcc : c0 = c' := nodup_key_inj h1 hc0mem hc'mem (by rw [hc0id, hc'id])
    have hstat : c0.status = CopyStatus.AVAILABLE := by rw [hcc]; exact hc'stat
    subst hloan
    rw [dictAdd_of_fresh Loan.loan_id s.loans _ (fun l hl => Nat.ne_of_lt (h4 l hl))]
    refine ⟨?_, ?_, ?_, ?_, ?_, ?_⟩
    · rw [setCopyStatus_map_id]
      exact h1
    · rw [List.map_append, List.nodup_append]
      refine ⟨h2, List.nodup_singleton _, ?_⟩
      intro a ha hb
      simp only [List.map_cons, List.map_nil, List.mem_singleton] at hb
      obtain ⟨l, hl, rfl⟩ := List.mem_map.mp ha
      exact absurd hb (Nat.ne_of_lt (h4 l hl))
    · intro c hcmem
      obtain ⟨c1, hc1, rfl⟩ := mem_setCopyStatus hcmem
      by_cases hcc1 : c1.copy_id == c0.copy_id
      · rw [if_pos hcc1]
        exact Nat.lt_succ_of_lt (h3 c1 hc1)
      · rw [if_neg hcc1]
        exact Nat.lt_succ_of_lt (h3 c1 hc1)
    · intro l hl
      rcases List.mem_append.mp hl with hl' | hl'
      · exact Nat.lt_succ_of_lt (h4 l hl')
      · rw [List.mem_singleton] at hl'
        rw [hl']
        exact Nat.lt_succ_self _
    · intro l hl
      rcases List.mem_append.mp hl with hl' | hl'
      · obtain ⟨c, hc, e⟩ := h5 l hl'
        obtain ⟨c2, hc2, e2⟩ := setCopyStatus_preserves_ids c0.copy_id CopyStatus.CHECKED_OUT hc
        exact ⟨c2, hc2, by rw [e2, e]⟩
      · rw [List.mem_singleton] at hl'
        subst hl'
        obtain ⟨c2, hc2, e2⟩ := setCopyStatus_preserves_ids c0.copy_id CopyStatus.CHECKED_OUT hc0mem
        exact ⟨c2, hc2, e2⟩
    · intro c hcmem
      obtain ⟨c1, hc1, rfl⟩ := mem_setCopyStatus hcmem
      by_cases hcc1 : c1.copy_id == c0.copy_id
      · have hceq : c1 = c0 := nodup_key_inj h1 hc1 hc0mem (by simpa using hcc1)
        subst hceq
        rw [if_pos hcc1]
        rw [openOn_append_new _ _ _ rfl]
        have hzero : openOn s.loans c1.copy_id = 0 := by
          rw [h6 c1 hc1, if_neg]
          rw [hstat]
          intro hcontra
          exact CopyStatus.noConfusion hcontra
        show openOn s.loans c1.copy_id + (if c1.copy_id = c1.copy_id then 1 else 0) =
          if CopyStatus.CHECKED_OUT = CopyStatus.CHECKED_OUT then 1 else 0
        rw [hzero, if_pos rfl, if_pos rfl]
      · rw [if_neg hcc1]
        rw [openOn_append_new _ _ _ rfl]
        have hne : ¬ (c0.copy_id = c1.copy_id) := by
          intro e
          exact hcc1 (by simp [e])
        show openOn s.loans c1.copy_id + (if c0.copy_id = c1.copy_id then 1 else 0) =
          if c1.status = CopyStatus.CHECKED_OUT then 1 else 0
        rw [if_neg hne, Nat.add_zero]
        exact h6 c1 hc1

theorem return_copy_cases (s : LibrarySystem) (loan_id now : Nat) :
    (CirculationService.return_copy s loan_id now = (none, s) ∧
      (LoanRepo.get s.loans loan_id = none ∨
        ∃ l, LoanRepo.get s.loans loan_id = some l ∧ l.returned_at.isSome)) ∨
    (∃ loan, LoanRepo.get s.loans loan_id = some loan ∧ loan.returned_at = none ∧
      CirculationService.return_copy s loan_id now =
        (some { loan with returned_at := some now },
         { s with
             loans := s.loans.map (fun l => if l.loan_id == loan_id then
               { loan with returned_at := some now } else l)
             copies :=
               match BookRepo.get_copy s.copies loan.copy_id with
               | some _ => setCopyStatus s.copies loan.copy_id CopyStatus.AVAILABLE
               | none => s.copies
             fines := (FineService.assess_overdue_fine s.fines s.nextId
               { loan with returned_at := some now } now).2.1
             nextId := (FineService.assess_overdue_fine s.fines s.nextId
               { loan with returned_at := some now } now).2.2 })) := by
  unfold CirculationService.return_copy
  cases hg : LoanRepo.get s.loans loan_id with
  | none => exact Or.inl ⟨rfl, Or.inl rfl⟩
  | some loan =>
    by_cases hr : loan.returned_at.isSome
    · refine Or.inl ⟨?_, Or.inr ⟨loan, rfl, hr⟩⟩
      simp only [hr, if_true]
    · have hrn : loan.returned_at = none := by
        cases hret : loan.returned_at with
        | none => rfl
        | some t => rw [hret] at hr; simp at hr
      refine Or.inr ⟨loan, rfl, hrn, ?_⟩
      have hr' : loan.returned_at.isSome = false := by rw [hrn]; rfl
      simp only [hr', Bool.false_eq_true, if_false]

theorem sysInv_return (s : LibrarySystem) (loan_id now : Nat) (hI : SysInv s) :
    SysInv (CirculationService.return_copy s loan_id now).2 := by
  obtain ⟨h1, h2, h3, h4, h5, h6⟩ := hI
  rcases return_copy_cases s loan_id now with ⟨heq, _⟩ | ⟨loan, hg, hrn, heq⟩
  · rw [heq]
    exact ⟨h1, h2, h3, h4, h5, h6⟩
  · rw [heq]
    have hloanmem : loan ∈ s.loans := List.mem_of_find?_eq_some hg
    have hlid : loan.loan_id = loan_id := by simpa using List.find?_some hg
    obtain ⟨cc, hccmem, hccid⟩ := h5 loan hloanmem
    have hgcs : (BookRepo.get_copy s.copies loan.copy_id).isSome := by
      unfold BookRepo.get_copy
      rw [List.find?_isSome]
      exact ⟨cc, hccmem, by simp [hccid]⟩
    cases hgcc : BookRepo.get_copy s.copies loan.copy_id with
    | none => rw [hgcc] at hgcs; simp at hgcs
    | some cfound =>
      simp only [hgcc]
      have hcfmem : cfound ∈ s.copies := List.mem_of_find?_eq_some hgcc
      have hcfid : cfound.copy_id = loan.copy_id := by simpa using List.find?_some hgcc
      have hof : 0 < openOn s.loans cfound.copy_id := by
        unfold openOn
        rw [List.countP_pos_iff]
        exact ⟨loan, hloanmem, by simp [hcfid, hrn]⟩
      have hcfstat : cfound.status = CopyStatus.CHECKED_OUT := by
        by_cases hst : cfound.status = CopyStatus.CHECKED_OUT
        · exact hst
        · have hc6 := h6 cfound hcfmem
          rw [if_neg hst] at hc6
          rw [hc6] at hof
          exact absurd hof (lt_irrefl 0)
      have hone : openOn s.loans cfound.copy_id = 1 := by
        rw [h6 cfound hcfmem, if_pos hcfstat]
      have hids : (s.loans.map (fun l => if l.loan_id == loan_id then
          { loan with returned_at := some now } else l)).map Loan.loan_id =
          s.loans.map Loan.loan_id := by
        rw [List.map_map]
        apply List.map_congr_left
        intro l hl
        by_cases hll : l.loan_id == loan_id
        · simp only [Function.comp, hll, if_true]
          show loan.loan_id = l.loan_id
          rw [hlid]
          exact (by simpa using hll : l.loan_id = loan_id).symm
        · simp only [Function.comp, hll, Bool.false_eq_true, if_false]
      have hle := assess_nextId_ge s.fines s.nextId { loan with returned_at := some now } now
      refine ⟨?_, ?_, ?_, ?_, ?_, ?_⟩
      · rw [setCopyStatus_map_id]
        exact h1
      · rw [hids]
        exact h2
      · intro c hc
        obtain ⟨c1, hc1, rfl⟩ := mem_setCopyStatus hc
        by_cases hx : c1.copy_id == loan.copy_id
        · rw [if_pos hx]
          exact lt_of_lt_of_le (h3 c1 hc1) hle
        · rw [if_neg hx]
          exact lt_of_lt_of_le (h3 c1 hc1) hle
      · intro l hl
        obtain ⟨l1, hl1, rfl⟩ := List.mem_map.mp hl
        by_cases hx : l1.loan_id == loan_id
        · rw [if_pos hx]
          exact lt_of_lt_of_le (h4 loan hloanmem) hle
        · rw [if_neg hx]
          exact lt_of_lt_of_le (h4 l1 hl1) hle
      · intro l hl
        obtain ⟨l1, hl1, rfl⟩ := List.mem_map.mp hl
        by_cases hx : l1.loan_id == loan_id
        · rw [if_pos hx]
          obtain ⟨c2, hc2, e2⟩ := setCopyStatus_preserves_ids loan.copy_id
            CopyStatus.AVAILABLE hcfmem
          exact ⟨c2, hc2, by rw [e2, hcfid]⟩
        · rw [if_neg hx]
          obtain ⟨c, hc, e⟩ := h5 l1 hl1
          obtain ⟨c2, hc2, e2⟩ := setCopyStatus_preserves_ids loan.copy_id
            CopyStatus.AVAILABLE hc
          exact ⟨c2, hc2, by rw [e2, e]⟩
      · intro c hc
        obtain ⟨c1, hc1, rfl⟩ := mem_setCopyStatus hc
        by_cases hx : c1.copy_id == loan.copy_id
        · rw [if_pos hx]
          show openOn (s.loans.map (fun l => if l.loan_id == loan_id then
              { loan with returned_at := some now } else l)) c1.copy_id =
            if CopyStatus.AVAILABLE = CopyStatus.CHECKED_OUT then 1 else 0
          rw [if_neg (fun hco => CopyStatus.noConfusion hco)]
          have hx' : loan.copy_id = c1.copy_id := (by simpa using hx : c1.copy_id = loan.copy_id).symm
          have hk := openOn_close_loan now h2 hg hrn c1.copy_id
          rw [if_pos hx'] at hk
          have hco : openOn s.loans c1.copy_id = 1 := by
            rw [(by simpa using hx : c1.copy_id = loan.copy_id), ← hcfid]
            exact hone
          omega
        · rw [if_neg hx]
          show openOn (s.loans.map (fun l => if l.loan_id == loan_id then
              { loan with returned_at := some now } else l)) c1.copy_id =
            if c1.status = CopyStatus.CHECKED_OUT then 1 else 0
          have hk := openOn_close_loan now h2 hg hrn c1.copy_id
          rw [if_neg (fun e => hx (by simp [e]))] at hk
          rw [Nat.add_zero] at hk
          rw [hk]
          exact h6 c1 hc1

theorem sysInv_applyOp (s : LibrarySystem) (op : Op) (hI : SysInv s) :
    SysInv (applyOp s op) := by
  cases op with
  | createUser name email role => exact sysInv_register s name email role hI
  | addBook title author isbn tags copies =>
    exact sysInv_addBook s title author isbn tags copies hI
  | checkout user_id book_id now => exact sysInv_checkout s user_id book_id now hI
  | returnLoan loan_id now => exact sysInv_return s loan_id now hI
  | reserve user_id book_id now => exact sysInv_reserve s user_id book_id now hI
  | payAllFines user_id now => exact sysInv_payAll s user_id now hI

theorem sysInv_runFrom (ops : List Op) :
    ∀ s : LibrarySystem, SysInv s → SysInv (runFrom s ops) := by
  induction ops with
  | nil => exact fun s h => h
  | cons op ops ih => exact fun s h => ih _ (sysInv_applyOp s op h)

theorem sysInv_reachable (s : LibrarySystem) (h : Reachable s) : SysInv s := by
  obtain ⟨ops, rfl⟩ := h
  exact sysInv_runFrom ops LibrarySystem.empty sysInv_empty

theorem sum_map_add {α : Type} (f g : α → Nat) (l : List α) :
    (l.map (fun x => f x + g x)).sum = (l.map f).sum + (l.map g).sum := by
  induction l with
  | nil => rfl
  | cons x xs ih =>
    simp only [List.map_cons, List.sum_cons, ih]
    omega

theorem sum_map_ite_count {α : Type} (p : α → Bool) (l : List α) :
    (l.map (fun x => if p x = true then 1 else 0)).sum = l.countP p := by
  induction l with
  | nil => rfl
  | cons x xs ih =>
    simp only [List.map_cons, List.sum_cons, ih, List.countP_cons]
    omega

theorem countP_copy_of_id {copies : List Copy} (hnd : (copies.map Copy.copy_id).Nodup)
    (bid k : Nat) :
    copies.countP (fun c => c.book_id == bid && c.copy_id == k) =
      (if (match BookRepo.get_copy copies k with
            | some c => c.book_id == bid
            | none => false) = true then 1 else 0) := by
  induction copies with
  | nil => rfl
  | cons c cs ih =>
    rw [List.map_cons, List.nodup_cons] at hnd
    rw [List.countP_cons]
    by_cases hk : c.copy_id == k
    · have hg : BookRepo.get_copy (c :: cs) k = some c := by
        unfold BookRepo.get_copy
        exact List.find?_cons_of_pos (p := fun c : Copy => c.copy_id == k) _ hk
      rw [hg]
      have h0 : cs.countP (fun c' => c'.book_id == bid && c'.copy_id == k) = 0 := by
        rw [List.countP_eq_zero]
        intro c' hc'
        simp only [Bool.and_eq_true, beq_iff_eq, not_and]
        intro _ hck
        exact absurd (((hck.trans (by simpa using hk : c.copy_id = k).symm)) ▸
          List.mem_map_of_mem Copy.copy_id hc') hnd.1
      rw [h0]
      simp [hk]
    · have hg : BookRepo.get_copy (c :: cs) k = BookRepo.get_copy cs k := by
        unfold BookRepo.get_copy
        exact List.find?_cons_of_neg (p := fun c : Copy => c.copy_id == k) _ hk
      rw [hg]
      simp only [hk, Bool.and_false, Bool.false_eq_true, if_false, Nat.add_zero]
      exact ih hnd.2

theorem openOn_cons (l : Loan) (ls : List Loan) (k : Nat) :
    openOn (l :: ls) k = openOn ls k +
      (if (l.copy_id == k && l.returned_at.isNone) = true then 1 else 0) := by
  unfold openOn
  exact List.countP_cons _ _ _

theorem sum_openOn_eq (copies : List Copy) (bid : Nat)
    (hnd : (copies.map Copy.copy_id).Nodup) (loans : List Loan) :
    ((copies.filter (fun c => c.book_id == bid)).map
      (fun c => openOn loans c.copy_id)).sum =
    loans.countP (fun l => l.returned_at.isNone && loanOfBook copies bid l) := by
  induction loans with
  | nil =>
    rw [List.countP_nil]
    rw [List.map_congr_left (fun c _ => by
      show openOn [] c.copy_id = 0
      rfl)]
    induction (copies.filter (fun c => c.book_id == bid)) with
    | nil => rfl
    | cons x xs ihx =>
      simp only [List.map_cons, List.sum_cons, Nat.zero_add]
      exact ihx
  | cons l ls ih =>
    have hind : ((copies.filter (fun c => c.book_id == bid)).map
        (fun c => if (l.copy_id == c.copy_id && l.returned_at.isNone) = true
          then 1 else 0)).sum =
        if (l.returned_at.isNone && loanOfBook copies bid l) = true then 1 else 0 := by
      rw [sum_map_ite_count (fun c : Copy => l.copy_id == c.copy_id && l.returned_at.isNone)
        (copies.filter (fun c => c.book_id == bid))]
      rw [List.countP_filter]
      cases hno : l.returned_at.isNone with
      | false => simp [hno]
      | true =>
        have hfun : (fun a : Copy => l.copy_id == a.copy_id && true && a.book_id == bid) =
            (fun c : Copy => c.book_id == bid && c.copy_id == l.copy_id) := by
          funext c
          rw [Bool.and_true]
          have hcc : (c.copy_id == l.copy_id) = (l.copy_id == c.copy_id) := by
            by_cases h : l.copy_id = c.copy_id
            · simp [h]
            · have h' : ¬ c.copy_id = l.copy_id := fun e => h e.symm
              simp [h, h']
          rw [hcc]
          exact Bool.and_comm _ _
        rw [hfun, countP_copy_of_id hnd bid l.copy_id]
        unfold loanOfBook
        simp
    rw [List.map_congr_left (fun c _ => openOn_cons l ls c.copy_id), sum_map_add, ih,
      List.countP_cons, hind]

theorem counts_eq_of_sysInv (s : LibrarySystem) (hI : SysInv s) (bid : Nat) :
    checkedOutCount s.copies bid = openLoanCount s bid := by
  have h1 := hI.copies_nodup
  have h6 := hI.open_count
  unfold checkedOutCount openLoanCount
  rw [← sum_openOn_eq s.copies bid h1 s.loans]
  rw [List.map_congr_left (fun c hc => h6 c (List.mem_of_mem_filter hc))]
  have hfun : (fun c : Copy => if c.status = CopyStatus.CHECKED_OUT then 1 else 0) =
      (fun c : Copy => if (c.status == CopyStatus.CHECKED_OUT) = true then 1 else 0) := by
    funext c
    by_cases h : c.status = CopyStatus.CHECKED_OUT <;> simp [h]
  rw [hfun, sum_map_ite_count (fun c : Copy => c.status == CopyStatus.CHECKED_OUT)
    (s.copies.filter (fun c => c.book_id == bid)), List.countP_filter]
  congr 1
  funext c
  exact Bool.and_comm _ _

theorem openOn_le_one_of_sysInv (s : LibrarySystem) (hI : SysInv s) (cid : Nat) :
    openOn s.loans cid ≤ 1 := by
  have h5 := hI.loan_copy_ex
  have h6 := hI.open_count
  by_cases hc : ∃ c ∈ s.copies, c.copy_id = cid
  · obtain ⟨c, hcmem, rfl⟩ := hc
    rw [h6 c hcmem]
    by_cases h : c.status = CopyStatus.CHECKED_OUT
    · rw [if_pos h]
    · rw [if_neg h]
      omega
  · have h0 : openOn s.loans cid = 0 := by
      unfold openOn
      rw [List.countP_eq_zero]
      intro l hl
      simp only [Bool.and_eq_true, beq_iff_eq, not_and]
      intro hcid _
      obtain ⟨c, hcm, e⟩ := h5 l hl
      exact hc ⟨c, hcm, by rw [e, hcid]⟩
    rw [h0]
    omega

/-- C1: in every state reachable through the facade operations, the number of
CheckedOut copies of a book equals the number of open loans on copies of that
book, and no copy ever carries two open loans. -/
theorem spec_C1_copy_loan_invariant (s : LibrarySystem) (h : Reachable s) (book_id : Nat) :
    checkedOutCount s.copies book_id = openLoanCount s book_id ∧
    ∀ copy_id : Nat, openOn s.loans copy_id ≤ 1 := by
  have hI := sysInv_reachable s h
  exact ⟨counts_eq_of_sysInv s hI book_id, fun cid => openOn_le_one_of_sysInv s hI cid⟩

/-- Witness for C1 on a concrete trace with a checked-out copy. -/
theorem spec_C1_copy_loan_invariant_witness :
    checkedOutCount demoState.copies 1 = openLoanCount demoState 1 ∧
    ∀ copy_id : Nat, openOn demoState.loans copy_id ≤ 1 :=
  spec_C1_copy_loan_invariant demoState ⟨demoOps, rfl⟩ 1

theorem addCopies_loans (book_id : Nat) : ∀ (n : Nat) (s : LibrarySystem),
    (addCopies s book_id n).loans = s.loans := by
  intro n
  induction n with
  | zero => exact fun s => rfl
  | succ n ih => exact fun s => ih _

theorem find?_map_update {loans : List Loan} {lid : Nat} (loan v : Loan)
    (hv : v.loan_id = loan.loan_id)
    (hfind : loans.find? (fun l => l.loan_id == lid) = some loan) :
    (loans.map (fun l => if l.loan_id == lid then v else l)).find?
      (fun l => l.loan_id == lid) = some v := by
  induction loans with
  | nil => cases hfind
  | cons x xs ih =>
    by_cases hx : x.loan_id == lid
    · rw [List.find?_cons_of_pos (p := fun l : Loan => l.loan_id == lid) _ hx] at hfind
      injection hfind with e
      subst e
      rw [List.map_cons, if_pos hx]
      exact List.find?_cons_of_pos _
        (by rw [hv]; exact hx)
    · rw [List.find?_cons_of_neg (p := fun l : Loan => l.loan_id == lid) _ hx] at hfind
      rw [List.map_cons, if_neg hx]
      rw [List.find?_cons_of_neg (p := fun l : Loan => l.loan_id == lid) _ hx]
      exact ih hfind

theorem returned_preserved_applyOp (s : LibrarySystem) (op : Op) (hI : SysInv s)
    {l : Loan} {t : Nat} (hl : l ∈ s.loans) (hret : l.returned_at = some t) :
    ∃ l' ∈ (applyOp s op).loans, l'.loan_id = l.loan_id ∧ l'.returned_at = some t := by
  cases op with
  | createUser name email role => exact ⟨l, hl, rfl, hret⟩
  | addBook title author isbn tags copies =>
    refine ⟨l, ?_, rfl, hret⟩
    show l ∈ (CatalogService.add_book_with_copies s title author isbn tags copies).2.loans
    unfold CatalogService.add_book_with_copies
    rw [addCopies_loans]
    exact hl
  | reserve user_id book_id now => exact ⟨l, hl, rfl, hret⟩
  | payAllFines user_id now => exact ⟨l, hl, rfl, hret⟩
  | checkout user_id book_id now =>
    show ∃ l' ∈ (CirculationService.checkout_first_available s user_id book_id now).2.loans,
      l'.loan_id = l.loan_id ∧ l'.returned_at = some t
    cases hres : (CirculationService.checkout_first_available s user_id book_id now).1 with
    | none =>
      rw [checkout_none_frame s user_id book_id now hres]
      exact ⟨l, hl, rfl, hret⟩
    | some loan =>
      obtain ⟨u, hu, hcb, hqh, heq⟩ := checkout_some s user_id book_id now loan hres
      rw [heq] at hres ⊢
      obtain ⟨c0, hf, hloan, hs'⟩ := checkoutAvailable_some s user_id book_id now _ loan hres
      rw [hs']
      subst hloan
      rw [dictAdd_of_fresh Loan.loan_id s.loans _
        (fun l' hl' => Nat.ne_of_lt (hI.loans_lt l' hl'))]
      exact ⟨l, List.mem_append_left _ hl, rfl, hret⟩
  | returnLoan loan_id now =>
    show ∃ l' ∈ (CirculationService.return_copy s loan_id now).2.loans,
      l'.loan_id = l.loan_id ∧ l'.returned_at = some t
    rcases return_copy_cases s loan_id now with ⟨heq, _⟩ | ⟨loan, hg, hrn, heq⟩
    · rw [heq]
      exact ⟨l, hl, rfl, hret⟩
    · rw [heq]
      have hloanmem : loan ∈ s.loans := List.mem_of_find?_eq_some hg
      have hlid : loan.loan_id = loan_id := by simpa using List.find?_some hg
      have hne : ¬ (l.loan_id == loan_id) = true := by
        intro hid
        have : l = loan := nodup_key_inj hI.loans_nodup hl hloanmem
          (by rw [hlid]; simpa using hid)
        rw [this, hrn] at hret
        exact Option.noConfusion hret
      refine ⟨l, ?_, rfl, hret⟩
      have himg : (fun x : Loan => if x.loan_id == loan_id then
          { loan with returned_at := some now } else x) l = l := if_neg hne
      rw [← himg]
      exact List.mem_map_of_mem _ hl

theorem returned_preserved_runFrom (ops : List Op) :
    ∀ s : LibrarySystem, SysInv s → ∀ l ∈ s.loans, ∀ t : Nat, l.returned_at = some t →
      ∃ l' ∈ (runFrom s ops).loans, l'.loan_id = l.loan_id ∧ l'.returned_at = some t := by
  induction ops with
  | nil => exact fun s _ l hl t ht => ⟨l, hl, rfl, ht⟩
  | cons op ops ih =>
    intro s hI l hl t ht
    obtain ⟨l', hl', hid, hret⟩ := returned_preserved_applyOp s op hI hl ht
    obtain ⟨l'', hl'', hid', hret'⟩ := ih (applyOp s op) (sysInv_applyOp s op hI) l' hl' t hret
    exact ⟨l'', hl'', hid'.trans hid, hret'⟩

/-- C7: `return_copy` denies exactly when the loan is missing or its return
timestamp is already set (so a second return of the same loan is denied);
otherwise it stamps the loan with `returned_at = now` — which no later facade
operation ever clears — and frees the copy when its record still exists,
tolerating a missing copy silently. -/
theorem spec_C7_return_loan (s : LibrarySystem) (hreach : Reachable s)
    (loan_id now now2 : Nat) :
    ((CirculationService.return_copy s loan_id now).1 = none ↔
      (LoanRepo.get s.loans loan_id = none ∨
        ∃ l, LoanRepo.get s.loans loan_id = some l ∧ l.returned_at ≠ none)) ∧
    (∀ l, LoanRepo.get s.loans loan_id = some l → l.returned_at = none →
      (CirculationService.return_copy s loan_id now).1 =
          some { l with returned_at := some now } ∧
      LoanRepo.get (CirculationService.return_copy s loan_id now).2.loans loan_id =
          some { l with returned_at := some now } ∧
      (∀ c, BookRepo.get_copy s.copies l.copy_id = some c →
        BookRepo.get_copy (CirculationService.return_copy s loan_id now).2.copies
            l.copy_id = some { c with status := CopyStatus.AVAILABLE }) ∧
      (BookRepo.get_copy s.copies l.copy_id = none →
        (CirculationService.return_copy s loan_id now).2.copies = s.copies) ∧
      (CirculationService.return_copy
          (CirculationService.return_copy s loan_id now).2 loan_id now2).1 = none) ∧
    (∀ ops : List Op, ∀ l ∈ s.loans, ∀ t : Nat, l.returned_at = some t →
      ∃ l' ∈ (runFrom s ops).loans, l'.loan_id = l.loan_id ∧ l'.returned_at = some t) := by
  have hI := sysInv_reachable s hreach
  refine ⟨?_, ?_, fun ops l hl t ht => returned_preserved_runFrom ops s hI l hl t ht⟩
  · rcases return_copy_cases s loan_id now with ⟨heq, hcond⟩ | ⟨loan, hg, hrn, heq⟩
    · refine iff_of_true (by rw [heq]) ?_
      rcases hcond with h | ⟨l, hl, hs⟩
      · exact Or.inl h
      · exact Or.inr ⟨l, hl, fun e => by rw [e] at hs; simp at hs⟩
    · refine iff_of_false (by rw [heq]; exact fun hc => Option.noConfusion hc) ?_
      rintro (hn | ⟨l, hlg, hne⟩)
      · rw [hg] at hn
        exact Option.noConfusion hn
      · rw [hg] at hlg
        injection hlg with e
        exact hne (e ▸ hrn)
  · intro l hg0 hrn0
    rcases return_copy_cases s loan_id now with ⟨heq, hcond⟩ | ⟨loan, hg, hrn, heq⟩
    · exfalso
      rcases hcond with h | ⟨l2, hl2, hs2⟩
      · rw [hg0] at h
        exact Option.noConfusion h
      · rw [hg0] at hl2
        injection hl2 with e2
        rw [← e2, hrn0] at hs2
        simp at hs2
    · have hel : loan = l := by
        rw [hg] at hg0
        injection hg0
      subst hel
      have hget' : LoanRepo.get
          (CirculationService.return_copy s loan_id now).2.loans loan_id =
          some { loan with returned_at := some now } := by
        rw [heq]
        show (s.loans.map (fun x => if x.loan_id == loan_id then
            { loan with returned_at := some now } else x)).find?
            (fun x => x.loan_id == loan_id) = some { loan with returned_at := some now }
        exact find?_map_update loan _ rfl hg0
      refine ⟨by rw [heq], hget', ?_, ?_, ?_⟩
      · intro c hc
        rw [heq]
        show BookRepo.get_copy
            (match BookRepo.get_copy s.copies loan.copy_id with
             | some _ => setCopyStatus s.copies loan.copy_id CopyStatus.AVAILABLE
             | none => s.copies) loan.copy_id =
          some { c with status := CopyStatus.AVAILABLE }
        rw [hc, get_copy_setCopyStatus_same, hc]
        rfl
      · intro hcn
        rw [heq]
        show (match BookRepo.get_copy s.copies loan.copy_id with
             | some _ => setCopyStatus s.copies loan.copy_id CopyStatus.AVAILABLE
             | none => s.copies) = s.copies
        rw [hcn]
      · rcases return_copy_cases
            (CirculationService.return_copy s loan_id now).2 loan_id now2 with
          ⟨heq2, _⟩ | ⟨loan2, hg2, hrn2, _⟩
        · rw [heq2]
        · rw [hget'] at hg2
          injection hg2 with e2
          rw [← e2] at hrn2
          exact Option.noConfusion hrn2

/-- Witness for C7: returning the demo loan stamps it with the return time,
and an immediate second return of the same loan is denied. -/
theorem spec_C7_return_loan_witness :
    (CirculationService.return_copy demoState 5 200).1 =
      some { demoLoan with returned_at := some 200 } ∧
    (CirculationService.return_copy
        (CirculationService.return_copy demoState 5 200).2 5 300).1 = none := by
  obtain ⟨ha, hb, hc⟩ := spec_C7_return_loan demoState ⟨demoOps, rfl⟩ 5 200 300
  have hcall := hb demoLoan (by rfl) rfl
  exact ⟨hcall.1, hcall.2.2.2.2⟩

/-- Witness for C2: checking out from the empty system is denied. -/
theorem spec_C2_checkout_denial_conditions_witness :
    (CirculationService.checkout_first_available LibrarySystem.empty 0 0 0).1 = none :=
  (spec_C2_checkout_denial_conditions LibrarySystem.empty 0 0 0).mpr
    (Or.inl (Or.inl rfl))

/-- Witness for C3: the demo checkout persists a loan for user 0 due 14 days
after the checkout time. -/
theorem spec_C3_checkout_success_witness :
    LoanRepo.get (CirculationService.checkout_first_available demoPre 0 1 100).2.loans
        demoLoan.loan_id = some demoLoan ∧
    demoLoan.due_at = 100 + 14 * secondsPerDay := by
  obtain ⟨h1, h2, h3, h4, h5, h6⟩ :=
    spec_C3_checkout_success demoPre 0 1 100 demoLoan (by decide) (by rfl)
  exact ⟨h1, h4⟩

/-- Witness for C5: the demo checkout fulfils user 0's reservation. -/
theorem spec_C5_reservation_fulfilment_witness :
    ∃ r0 ∈ demoPre.reservations, r0.user_id = 0 ∧ r0.book_id = 1 ∧
      r0.status = ReservationStatus.ACTIVE ∧
      (∀ r ∈ demoPre.reservations, r.user_id = 0 → r.book_id = 1 →
        r.status = ReservationStatus.ACTIVE → r0.placed_at ≤ r.placed_at) ∧
      List.Forall₂ (fun r r' =>
          (r = r0 → r' = { r0 with status := ReservationStatus.FULFILLED }) ∧
          (r ≠ r0 → r' = r))
        demoPre.reservations
        (CirculationService.checkout_first_available demoPre 0 1 100).2.reservations :=
  spec_C5_reservation_fulfilment demoPre 0 1 100 demoLoan (by decide) (by rfl)
    ⟨demoRes, by decide, rfl, rfl, rfl⟩

/-- Witness for C6: paying [demoFine] yields 50 and a second call is a no-op. -/
theorem spec_C6_pay_all_idempotent_witness :
    (FineService.pay_all [demoFine] 0 5).1 = 50 ∧
    FineService.pay_all (FineService.pay_all [demoFine] 0 5).2 0 6 =
      (0, (FineService.pay_all [demoFine] 0 5).2) := by
  obtain ⟨h1, h2, h3⟩ := spec_C6_pay_all_idempotent [demoFine] 0 5 6
  exact ⟨by rw [h1]; rfl, h2⟩

/-- Witness for C8: returning the demo loan leaves the reservation store as is. -/
theorem spec_C8_return_reservations_frame_witness :
    (CirculationService.return_copy demoState 5 200).2.reservations =
      demoState.reservations :=
  spec_C8_return_reservations_frame demoState 5 200

/-- Witness for C9 (amended): searching "A" finds the book titled "ax". -/
theorem spec_C9_search_characterization_witness :
    bkAx ∈ BookRepo.search [bkAx] "A" :=
  (spec_C9_search_characterization [bkAx] "A" bkAx).mpr
    ⟨by decide, Or.inl ⟨[], ['x'], by decide⟩⟩

/-- Witness for C10: a denied checkout on the empty system leaves it unchanged. -/
theorem spec_C10_checkout_denial_atomic_witness :
    (CirculationService.checkout_first_available LibrarySystem.empty 0 0 0).2 =
      LibrarySystem.empty :=
  spec_C10_checkout_denial_atomic LibrarySystem.empty 0 0 0 rfl
